import Mathlib

/-!
Verification development for the consus-energy/edge-logic edge agent.

This file gives a shallow embedding, in Lean 4, of the control and state
subsystem of the repository (write guard, task store, EMS decider/applier,
alert state machine, bus task handler) and proves or refutes the frozen
behavioural claims about it.

Modelling conventions:
* Python floats (timestamps in seconds, powers in watts, state of charge)
  are modelled as exact rationals; `int(x)` is truncation toward zero.
* Python dicts are modelled as association lists with dict semantics
  (first-match lookup, in-place replacement on assignment, append on
  fresh keys); insertion order is preserved as in CPython.
* Wall-clock local datetimes are modelled as an integer count of seconds
  in the operator timezone; a calendar day is `dt / 86400`, the time of
  day `dt % 86400`.  Calendar days (`service_day`) are integers.
* A write action that the device may fail is modelled by a boolean
  outcome (`true` = the underlying call returned, `false` = it raised).
* Logging, locking and other side effects with no influence on the data
  flow are dropped.
-/

attribute [local semireducible] Rat.add Rat.sub Rat.mul Rat.inv

namespace EdgeLogic

/-- Python `int()` applied to an exact rational: truncation toward zero. -/
def pyInt (q : ℚ) : ℤ := if q < 0 then ⌈q⌉ else ⌊q⌋

/-- Python `x or y` over optional numbers: the left operand wins unless it
is falsy (`None` or `0`). -/
def pyOrQ (a b : Option ℚ) : Option ℚ :=
  match a with
  | some x => if x = 0 then b else some x
  | none => b

/-- Python `str.lower()` (character-wise lowercasing). -/
def strLower (s : String) : String := ⟨s.data.map Char.toLower⟩

/-- Dict lookup `d.get(k)` on an association list (first matching key). -/
def lookupA {α β : Type} [DecidableEq α] : List (α × β) → α → Option β
  | [], _ => none
  | (k, v) :: t, k0 => if k = k0 then some v else lookupA t k0

/-- Dict assignment `d[k] = v`: replaces the first binding of `k` in place,
appends when `k` is fresh (CPython insertion-order semantics). -/
def setA {α β : Type} [DecidableEq α] : List (α × β) → α → β → List (α × β)
  | [], k0, v0 => [(k0, v0)]
  | (k, v) :: t, k0, v0 => if k = k0 then (k0, v0) :: t else (k, v) :: setA t k0 v0

/-- Dict deletion `d.pop(k, None)`: removes the first binding of `k`. -/
def eraseA {α β : Type} [DecidableEq α] : List (α × β) → α → List (α × β)
  | [], _ => []
  | (k, v) :: t, k0 => if k = k0 then t else (k, v) :: eraseA t k0

/-! ## Write guard (src/utils/write_guard.py) -/

/-- Process-global `WriteGuard` class state (write_guard.py lines 17-21):
per-register latched value and write timestamp, plus the global
1-second-window accounting. -/
structure GuardState where
  last_value : List (ℤ × ℤ)
  last_write_ts : List (ℤ × ℚ)
  window_start : ℚ
  window_count : ℕ
deriving DecidableEq

/-- Initial class-attribute state of the guard. -/
def GuardState.init : GuardState := ⟨[], [], 0, 0⟩

/-- Policy constant `MIN_INTERVAL_PER_REGISTER = 0.25` s. -/
def WriteGuard.MIN_INTERVAL : ℚ := 1/4

/-- Policy constant `MAX_WRITES_PER_SEC = 5`. -/
def WriteGuard.MAX_WRITES : ℕ := 5

/-- Result of one `WriteGuard.attempt` call: the returned accepted flag,
whether the write action was actually invoked, and the class state after
the call. -/
structure AttemptOut where
  accepted : Bool
  invoked : Bool
  state : GuardState
deriving DecidableEq

/-- Window accounting at the top of `attempt` (write_guard.py lines 27-30):
when a full second has elapsed the window restarts at `now` with a zero
count. -/
def WriteGuard.resetWindow (gs : GuardState) (now : ℚ) : GuardState :=
  if 1 ≤ now - gs.window_start then { gs with window_start := now, window_count := 0 } else gs

/-- Embedding of `WriteGuard.attempt` (write_guard.py lines 23-55).
`writeOk` tells whether the write action, if invoked, completes without
raising.  Mirrors the source order: window accounting, dedupe check,
per-register interval check, global rate check, then the guarded call;
the value/timestamp latch and the window-count increment happen only
after the action returned. -/
def WriteGuard.attempt (gs : GuardState) (address value : ℤ) (now : ℚ) (writeOk : Bool) :
    AttemptOut :=
  let g := WriteGuard.resetWindow gs now
  if lookupA g.last_value address = some value then
    ⟨false, false, g⟩
  else if now - ((lookupA g.last_write_ts address).getD 0) < WriteGuard.MIN_INTERVAL then
    ⟨false, false, g⟩
  else if WriteGuard.MAX_WRITES ≤ g.window_count then
    ⟨false, false, g⟩
  else if writeOk then
    ⟨true, true,
      { g with last_value := setA g.last_value address value,
               last_write_ts := setA g.last_write_ts address now,
               window_count := g.window_count + 1 }⟩
  else
    ⟨false, true, g⟩

/-- Replay of a list of guarded write requests `(now, address, value)`,
each with a succeeding write action; returns the final guard state and,
per request, its timestamp with the accepted flag. -/
def runGuard (gs : GuardState) : List (ℚ × ℤ × ℤ) → GuardState × List (ℚ × Bool)
  | [] => (gs, [])
  | (t, a, v) :: rest =>
    let r := WriteGuard.attempt gs a v t true
    let o := runGuard r.state rest
    (o.1, (t, r.accepted) :: o.2)

/-- Number of accepted writes whose timestamp falls in `[lo, hi)`. -/
def acceptedWithin (outs : List (ℚ × Bool)) (lo hi : ℚ) : ℕ :=
  (outs.filter (fun p => p.2 && (decide (lo ≤ p.1) && decide (p.1 < hi)))).length

/-! ## Task store (src/core/edge_state.py) -/

/-- Stored dynamic task entry (edge_state.py lines 144-153).  Window bounds
and `updated_at` are stored already parsed; the idempotency key is a plain
string (empty when the payload carried none). -/
structure DynTask where
  task_code : String
  charge_windows : List (ℤ × ℤ)
  max_import_limit_kw : Option ℚ
  override : Bool
  updated_at : ℚ
  idempotency_key : String
  revision : ℤ
deriving DecidableEq

/-- Stored static task entry (edge_state.py lines 107-117). -/
structure StaticTask where
  task_code : Option String
  charge_window_start : Option ℤ
  charge_window_end : Option ℤ
  max_import_limit_kw : Option ℚ
  override : Bool
  updated_at : ℚ
  idempotency_key : Option String
  revision : ℤ
deriving DecidableEq

/-- Inbound task payload as it reaches `EdgeState.update_task`.  String
fields that the source parses (`service_day`, window bounds, `updated_at`)
are modelled already parsed, with `none` standing for an absent or
unparseable value; `charge_windows` keeps only the well-formed pairs the
source would parse successfully. -/
structure TaskPayload where
  task_type : Option String
  service_day : Option ℤ
  charge_windows : List (ℤ × ℤ)
  charge_window_start : Option ℤ
  charge_window_end : Option ℤ
  max_import_limit : Option ℚ
  override : Bool
  idempotency_key : Option String
  revision : Option ℤ
  updated_at : Option ℚ
  task_code : Option String
deriving DecidableEq

/-- Payload of an empty JSON object `{}` (all keys absent). -/
def emptyTaskPayload : TaskPayload :=
  ⟨none, none, [], none, none, none, false, none, none, none, none⟩

/-- Global settings dict, restricted to the keys the embedded code reads.
`none` means the key is absent. -/
structure Settings where
  target_soc_percent : Option ℚ
  import_charge_power_w : Option ℚ
  min_import_w : Option ℚ
  export_cap_w : Option ℚ
  external_meter : Option Bool
  meter_bias_w : Option ℚ
  max_charge_w : Option ℚ
  max_ramp_rate_w_per_s : Option ℚ
  ramprate : Option ℚ
  auto_bias_trim : Option (Bool × Option ℚ × Option ℚ × Option ℚ)
deriving DecidableEq

/-- Settings dict with every key absent. -/
def Settings.empty : Settings :=
  ⟨none, none, none, none, none, none, none, none, none, none⟩

/-- Per-battery config dict, restricted to the keys the EMS applier reads. -/
structure BatteryCfg where
  max_charge_w : Option ℚ
  max_ramp_rate_w_per_s : Option ℚ
deriving DecidableEq

/-- Battery config dict with every key absent (`get_battery_config` default). -/
def BatteryCfg.empty : BatteryCfg := ⟨none, none⟩

/-- Embedded `EdgeState`: dynamic tasks per unit per service day, static
tasks per unit, settings and battery configs, and the fallback freshness
bound (`fallback_max_days`, default 2). -/
structure EdgeStateM where
  tasks_dynamic : List (String × List (ℤ × DynTask))
  tasks_static : List (String × StaticTask)
  settings : Settings
  battery_configs : List (String × BatteryCfg)
  fallback_max_days : ℤ
deriving DecidableEq

/-- Day filter of the garbage collector: keep only today and tomorrow. -/
def keepDay (today d : ℤ) : Bool := d == today || d == today + 1

/-- Inner step of `_gc_dynamic_keep_today_tomorrow`: drop entries outside
{today, tomorrow}, then drop units whose day map became empty
(edge_state.py lines 284-292). -/
def gcDynList (today : ℤ) (l : List (String × List (ℤ × DynTask))) :
    List (String × List (ℤ × DynTask)) :=
  (l.map (fun cm => (cm.1, cm.2.filter (fun de => keepDay today de.1)))).filter
    (fun cm => !cm.2.isEmpty)

/-- Embedding of `EdgeState._gc_dynamic_keep_today_tomorrow`. -/
def gcDynamic (s : EdgeStateM) (today : ℤ) : EdgeStateM :=
  { s with tasks_dynamic := gcDynList today s.tasks_dynamic }

/-- Content of the dynamic slot `(cid, sd)` in a dynamic task store. -/
def dynSlot (l : List (String × List (ℤ × DynTask))) (cid : String) (sd : ℤ) : Option DynTask :=
  lookupA ((lookupA l cid).getD []) sd

/-- The replacement condition of claim C6, written after the claim's own
wording: a new dynamic entry N replaces the existing slot entry E exactly
when N is an override over a non-override, or both carry the same
non-empty idempotency key with a higher revision, or the same key and
revision with a strictly newer `updated_at`, or the keys are not both
equal and non-empty. -/
def takesNew (N E : DynTask) : Prop :=
  (N.override = true ∧ E.override = false) ∨
  (N.idempotency_key ≠ "" ∧ N.idempotency_key = E.idempotency_key ∧
    E.revision < N.revision) ∨
  (N.idempotency_key ≠ "" ∧ N.idempotency_key = E.idempotency_key ∧
    N.revision = E.revision ∧ E.updated_at < N.updated_at) ∨
  ¬(N.idempotency_key ≠ "" ∧ E.idempotency_key ≠ "" ∧
    N.idempotency_key = E.idempotency_key)

instance takesNewDecidable (N E : DynTask) : Decidable (takesNew N E) := by
  unfold takesNew
  infer_instance

/-- The keep-E case of the dynamic merge (edge_state.py lines 163-184):
no override supersession, same non-empty key, no higher revision, no
strictly newer tie-breaker. -/
def dropCond (N E : DynTask) : Prop :=
  ¬((N.override && !E.override) = true) ∧
  (N.idempotency_key ≠ "" ∧ E.idempotency_key ≠ "" ∧
    N.idempotency_key = E.idempotency_key) ∧
  ¬(E.revision < N.revision) ∧
  ¬(N.revision = E.revision ∧ E.updated_at < N.updated_at)

/-- Claim C8's store invariant over the dynamic task map: per unit, at
most one entry per service day (no duplicate day keys) and every stored
day lies in {today, tomorrow}. -/
def InvDyn (l : List (String × List (ℤ × DynTask))) (today : ℤ) : Prop :=
  ∀ cm ∈ l, ((cm.2.map Prod.fst).Nodup ∧ ∀ de ∈ cm.2, keepDay today de.1 = true)

instance InvDynDecidable (l : List (String × List (ℤ × DynTask))) (today : ℤ) :
    Decidable (InvDyn l today) := by
  unfold InvDyn
  infer_instance

/-- Dynamic entry built from a payload (edge_state.py lines 144-153). -/
def mkDynEntry (cid : String) (p : TaskPayload) (sd : ℤ) (now : ℚ) : DynTask :=
  { task_code := p.task_code.getD ("task-" ++ cid ++ "-" ++ toString sd)
    charge_windows := p.charge_windows
    max_import_limit_kw := p.max_import_limit
    override := p.override
    updated_at := p.updated_at.getD now
    idempotency_key := p.idempotency_key.getD ""
    revision := p.revision.getD 0 }

/-- Static entry built from a payload (edge_state.py lines 96-117),
including the fallback that takes the window from the first
`charge_windows` pair when the explicit bounds are missing. -/
def mkStaticEntry (p : TaskPayload) (now : ℚ) : StaticTask :=
  let s0 := p.charge_window_start
  let e0 := p.charge_window_end
  let se : Option ℤ × Option ℤ :=
    if (s0.isNone || e0.isNone) && !p.charge_windows.isEmpty then
      match p.charge_windows with
      | (a, b) :: _ => (some a, some b)
      | [] => (s0, e0)
    else (s0, e0)
  { task_code := p.task_code
    charge_window_start := se.1
    charge_window_end := se.2
    max_import_limit_kw := p.max_import_limit
    override := p.override
    updated_at := p.updated_at.getD now
    idempotency_key := p.idempotency_key
    revision := p.revision.getD 0 }

/-- Conflict resolution of the dynamic path of `update_task`
(edge_state.py lines 155-186): returns the unit day map after the merge
decision between the new entry and the slot content. -/
def mergeDyn (per_batt : List (ℤ × DynTask)) (sd : ℤ) (entry : DynTask) :
    List (ℤ × DynTask) :=
  match lookupA per_batt sd with
  | some existing =>
    if entry.override && !existing.override then
      setA per_batt sd entry
    else if entry.idempotency_key ≠ "" ∧ existing.idempotency_key ≠ "" ∧
        entry.idempotency_key = existing.idempotency_key then
      if existing.revision < entry.revision then setA per_batt sd entry
      else if entry.revision = existing.revision ∧ existing.updated_at < entry.updated_at then
        setA per_batt sd entry
      else per_batt
    else setA per_batt sd entry
  | none => setA per_batt sd entry

/-- Embedding of `EdgeState._fallback_dynamic_from_previous`
(edge_state.py lines 242-282): copy the most recent stored day forward
into missing today/tomorrow slots when it is fresh enough; refuse when the
most recent day is more than `fallback_max_days` old. -/
def fallbackFromPrevious (s : EdgeStateM) (cid : String) (now : ℚ) (today : ℤ) : EdgeStateM :=
  let per_batt := (lookupA s.tasks_dynamic cid).getD []
  match per_batt with
  | [] => s
  | (d0, _) :: rest =>
    let last_day := rest.foldl (fun m de => max m de.1) d0
    if s.fallback_max_days < today - last_day then s
    else
      match lookupA per_batt last_day with
      | none => s
      | some last_task =>
        let tomorrow := today + 1
        let pb1 :=
          if (lookupA per_batt today).isSome then per_batt
          else setA per_batt today
            { last_task with task_code := last_task.task_code ++ "-copy-" ++ toString today,
                             updated_at := now }
        let pb2 :=
          if (lookupA pb1 tomorrow).isSome then pb1
          else setA pb1 tomorrow
            { last_task with task_code := last_task.task_code ++ "-copy-" ++ toString tomorrow,
                             updated_at := now }
        gcDynamic { s with tasks_dynamic := setA s.tasks_dynamic cid pb2 } today

/-- Embedding of `EdgeState.update_task` for a single unit
(edge_state.py lines 71-188).  `none` payload runs the dynamic fallback;
`task_type = "static"` runs the static path; anything else is the dynamic
path, which rejects payloads without a valid `service_day` and otherwise
merges and then garbage-collects. -/
def updateTask (s : EdgeStateM) (cid : String) (p? : Option TaskPayload)
    (now : ℚ) (today : ℤ) : EdgeStateM :=
  match p? with
  | none => fallbackFromPrevious s cid now today
  | some p =>
    if strLower (p.task_type.getD "") = "static" then
      let entry := mkStaticEntry p now
      match lookupA s.tasks_static cid with
      | some prev =>
        if prev.override && !entry.override then s
        else { s with tasks_static := setA s.tasks_static cid entry }
      | none => { s with tasks_static := setA s.tasks_static cid entry }
    else
      match p.service_day with
      | none => s
      | some sd =>
        let entry := mkDynEntry cid p sd now
        let per_batt := (lookupA s.tasks_dynamic cid).getD []
        gcDynamic
          { s with tasks_dynamic := setA s.tasks_dynamic cid (mergeDyn per_batt sd entry) }
          today

/-- Embedding of `EdgeState.complete_task` (edge_state.py lines 197-207). -/
def completeTask (s : EdgeStateM) (cid : String) (day today : ℤ) : EdgeStateM :=
  let s1 :=
    match lookupA s.tasks_dynamic cid with
    | some daymap =>
      if !daymap.isEmpty && (lookupA daymap day).isSome then
        let dm := eraseA daymap day
        if dm.isEmpty then { s with tasks_dynamic := eraseA s.tasks_dynamic cid }
        else { s with tasks_dynamic := setA s.tasks_dynamic cid dm }
      else s
    | none => s
  gcDynamic s1 today

/-- Embedding of `EdgeState.get_charge_windows` (edge_state.py lines
218-239): dynamic windows for the day if a dynamic entry exists, else the
static single window when both bounds are set, else no windows. -/
def getChargeWindows (s : EdgeStateM) (cid : String) (day : ℤ) : List (ℤ × ℤ) :=
  match lookupA ((lookupA s.tasks_dynamic cid).getD []) day with
  | some de => de.charge_windows
  | none =>
    match lookupA s.tasks_static cid with
    | some st =>
      match st.charge_window_start, st.charge_window_end with
      | some a, some b => [(a, b)]
      | _, _ => []
    | none => []

/-- The `max_import_limit_kw` of the resolved task, as read by the EMS
decider via `(EDGE_STATE.get_task(cid) or {}).get("max_import_limit_kw")`
(edge_state.py lines 191-195, ems_manager.py lines 165-166): the dynamic
entry for the day takes precedence over the static entry. -/
def getTaskCap (s : EdgeStateM) (cid : String) (day : ℤ) : Option ℚ :=
  match lookupA ((lookupA s.tasks_dynamic cid).getD []) day with
  | some de => de.max_import_limit_kw
  | none =>
    match lookupA s.tasks_static cid with
    | some st => st.max_import_limit_kw
    | none => none

/-- Embedding of `EdgeState.get_battery_config` (default empty dict). -/
def getBatteryConfig (s : EdgeStateM) (cid : String) : BatteryCfg :=
  (lookupA s.battery_configs cid).getD BatteryCfg.empty

/-- Bus handler branch for `type == "task"` (mqtt_listener.py lines 46-78):
`data = payload.get("data") or {}` - a null or absent data field becomes
the empty dict, which is then passed to `update_task` as a (non-null)
payload. -/
def onTaskMessage (s : EdgeStateM) (cid : String) (data : Option TaskPayload)
    (now : ℚ) (today : ℤ) : EdgeStateM :=
  updateTask s cid (some (data.getD emptyTaskPayload)) now today

/-! ## EMS manager (src/battery_opt/ems_manager.py) -/

/-- EMS mode register value for Auto (self-balancing). -/
def AUTO_MODE : ℕ := 1

/-- EMS mode register value for Import-AC (grid charging). -/
def IMPORT_AC_MODE : ℕ := 4

/-- Calendar day of a local datetime (seconds since the local epoch). -/
def dayOf (dt : ℤ) : ℤ := dt / 86400

/-- Local time of day in seconds, `datetime.now(tz).time()`. -/
def todOf (dt : ℤ) : ℤ := dt % 86400

/-- Per-unit EMS runtime state (ems_manager.py lines 20-23). -/
structure EMSState where
  commissioned : Bool
  last_setpoint_w : ℤ
  last_setpoint_ts : Option ℚ
  hold_until : Option ℤ
deriving DecidableEq

/-- Time-in-window predicate of `EMSManager.in_charge_window`
(ems_manager.py lines 104-116): each window is left-closed right-open;
`start > end` spans midnight. -/
def inAnyWindow (now_t : ℤ) (ws : List (ℤ × ℤ)) : Bool :=
  ws.any (fun se =>
    if se.1 ≤ se.2 then decide (se.1 ≤ now_t ∧ now_t < se.2)
    else decide (se.1 ≤ now_t ∨ now_t < se.2))

/-- Loop body of `EMSManager._current_window_end_dt` over the window list
(ems_manager.py lines 124-138): the end of the first window covering
`now_t`, anchored at the midnight preceding `now_dt` (or the following
midnight when a midnight-spanning window started today). -/
def windowEndFrom (now_t midnight : ℤ) : List (ℤ × ℤ) → Option ℤ
  | [] => none
  | (a, b) :: rest =>
    if a ≤ b then
      if a ≤ now_t ∧ now_t < b then some (midnight + b) else windowEndFrom now_t midnight rest
    else
      if a ≤ now_t then some (midnight + 86400 + b)
      else if now_t < b then some (midnight + b)
      else windowEndFrom now_t midnight rest

/-- Embedding of `EMSManager._current_window_end_dt` (ems_manager.py lines
118-138), resolving the windows for the current day from the task store. -/
def currentWindowEndDt (s : EdgeStateM) (cid : String) (now_dt : ℤ) : Option ℤ :=
  windowEndFrom (todOf now_dt) (now_dt - todOf now_dt) (getChargeWindows s cid (dayOf now_dt))

/-- Result of one `EMSManager.decide` call: the returned mode and setpoint
plus the hold latch as it stands after the call. -/
structure DecideOut where
  mode : ℕ
  setpoint : ℤ
  hold_until : Option ℤ
deriving DecidableEq

/-- Embedding of `EMSManager.decide` (ems_manager.py lines 147-197),
written branch for branch after the source: hold latch at target inside a
window, import setpoint derivation below target, Auto with a cleared hold
outside windows. -/
def EMSdecide (s : EdgeStateM) (cid : String) (ems : EMSState)
    (soc pv_power : ℚ) (now_dt : ℤ) : DecideOut :=
  let target_soc := (s.settings.target_soc_percent.getD 100) / 100
  let base := s.settings.import_charge_power_w.getD 0
  let min_import := s.settings.min_import_w.getD 0
  let dyn_cap_kw := getTaskCap s cid (dayOf now_dt)
  if inAnyWindow (todOf now_dt) (getChargeWindows s cid (dayOf now_dt)) then
    if target_soc * (99/100) ≤ soc then
      let hold :=
        match ems.hold_until with
        | none => currentWindowEndDt s cid now_dt
        | some h => if h ≤ now_dt then currentWindowEndDt s cid now_dt else some h
      ⟨IMPORT_AC_MODE, 0, hold⟩
    else
      let effective : ℚ :=
        if 0 < base then
          (if base - pv_power < min_import then min_import else base - pv_power)
        else 0
      let capped : ℚ :=
        match dyn_cap_kw with
        | some c => if 0 < c then min effective ((pyInt (c * 1000) : ℤ) : ℚ) else effective
        | none => effective
      ⟨IMPORT_AC_MODE, pyInt (max 0 capped), ems.hold_until⟩
  else
    ⟨AUTO_MODE, 0, none⟩

/-- The claim-side decider, written sentence for sentence after the spec
(spec.md section 4.F / claim C1): hold latched to the covering window end
when no hold is set or the existing one has passed;
`eff = max(base - pv, min_imp)` when `base > 0` else `0`, capped by the
dynamic task limit, emitted as `max(0, eff)`; Auto with a cleared hold
outside windows.  Compared against `EMSdecide` in theorem C1. -/
def decideSpecC1 (s : EdgeStateM) (cid : String) (ems : EMSState)
    (soc pv_power : ℚ) (now_dt : ℤ) : DecideOut :=
  let target := (s.settings.target_soc_percent.getD 100) / 100
  if inAnyWindow (todOf now_dt) (getChargeWindows s cid (dayOf now_dt)) then
    if target * (99/100) ≤ soc then
      { mode := IMPORT_AC_MODE, setpoint := 0,
        hold_until :=
          if ems.hold_until.all (fun h => decide (h ≤ now_dt)) then
            currentWindowEndDt s cid now_dt
          else ems.hold_until }
    else
      let base := s.settings.import_charge_power_w.getD 0
      let eff : ℚ := if 0 < base then max (base - pv_power) (s.settings.min_import_w.getD 0) else 0
      let eff2 : ℚ :=
        match getTaskCap s cid (dayOf now_dt) with
        | some c => if 0 < c then min eff ((pyInt (c * 1000) : ℤ) : ℚ) else eff
        | none => eff
      { mode := IMPORT_AC_MODE, setpoint := max 0 (pyInt eff2), hold_until := ems.hold_until }
  else
    { mode := AUTO_MODE, setpoint := 0, hold_until := none }

/-- Environment of one applier tick: the register map (name to address),
the per-address outcome of the underlying field-bus write action, and the
results of the two reads the applier performs. -/
structure ApplyEnv where
  regAddr : List (String × ℤ)
  deviceOk : ℤ → Bool
  currentModeRead : Option ℕ
  currentBiasRead : Option ℤ

/-- Embedding of `BatteryUnit.safe_write` composed with
`BatteryRegisterInterface.write_register` (battery_unit.py lines 77-82,
modbus_registry.py lines 63-79): resolve the address (a failure is
swallowed), truncate the value to int, route through the write guard, and
drop both the accepted flag and any exception.  Returns the new guard
state together with the guard verdict (which the source discards). -/
def safeWrite (env : ApplyEnv) (gs : GuardState) (name : String) (value : ℚ) (now : ℚ) :
    GuardState × Option Bool :=
  match lookupA env.regAddr name with
  | none => (gs, none)
  | some addr =>
    let r := WriteGuard.attempt gs addr (pyInt value) now (env.deviceOk addr)
    (r.state, some r.accepted)

/-- Embedding of `EMSManager.commission_if_needed` (ems_manager.py lines
26-52).  In the model none of the steps can raise (`safe_write` swallows
all errors), so the flag is always set after the first run. -/
def commissionIfNeeded (env : ApplyEnv) (s : EdgeStateM) (ems : EMSState)
    (gs : GuardState) (now : ℚ) : EMSState × GuardState :=
  if ems.commissioned then (ems, gs)
  else
    let g1 := (safeWrite env gs "manufacturer_code" 2 now).1
    let g2 := (safeWrite env g1 "feed_power_enable" 1 now).1
    let g3 := (safeWrite env g2 "export_power_cap" (s.settings.export_cap_w.getD 0) now).1
    let g4 :=
      if s.settings.external_meter.getD true then
        (safeWrite env g3 "external_meter_enable" 1 now).1
      else g3
    let bias := s.settings.meter_bias_w.getD (-50)
    let g5 := (safeWrite env g4 "meter_target_power_offset" ((pyInt bias : ℤ) : ℚ) now).1
    ({ ems with commissioned := true }, g5)

/-- Clamp half of the Import-AC pipeline of `EMSManager.apply`
(ems_manager.py lines 213-219): floor negative requests at zero, then
clamp to a configured positive `max_charge_w`. -/
def clampStage (max_charge_w : Option ℚ) (x0 : ℤ) : ℤ :=
  let x1 := if x0 < 0 then 0 else x0
  match max_charge_w with
  | some m => if 0 < m ∧ m < (x1 : ℚ) then pyInt m else x1
  | none => x1

/-- Ramp half of the Import-AC pipeline of `EMSManager.apply`
(ems_manager.py lines 220-229): when a positive ramp rate and a baseline
timestamp exist, limit the step from the last setpoint to
`ramp_rate * dt` with `dt = max(1 ms, now - last_ts)`, truncating the
ramped value with `int()`. -/
def rampStage (ramp_rate : Option ℚ) (last_w : ℤ) (last_ts : Option ℚ) (now_ts : ℚ)
    (x2 : ℤ) : ℤ :=
  match ramp_rate, last_ts with
  | some r, some ts =>
    if 0 < r then
      let dt := max (1/1000) (now_ts - ts)
      let max_delta := r * dt
      let delta := x2 - last_w
      if max_delta < |(delta : ℚ)| then
        if 0 < delta then pyInt ((last_w : ℚ) + max_delta) else pyInt ((last_w : ℚ) - max_delta)
      else x2
    else x2
  | _, _ => x2

/-- Clamp-and-ramp pipeline of `EMSManager.apply` for an Import-AC tick
(ems_manager.py lines 212-229). -/
def clampRamp (max_charge_w ramp_rate : Option ℚ) (last_w : ℤ) (last_ts : Option ℚ)
    (now_ts : ℚ) (x0 : ℤ) : ℤ :=
  rampStage ramp_rate last_w last_ts now_ts (clampStage max_charge_w x0)

/-- Auto bias trim block of `EMSManager.apply` (ems_manager.py lines
257-273); only touches the guard state via the offset write. -/
def biasTrim (env : ApplyEnv) (s : EdgeStateM) (gs : GuardState) (mode : ℕ)
    (meter_p now_ts : ℚ) : GuardState :=
  match s.settings.auto_bias_trim with
  | none => gs
  | some bc =>
    if bc.1 && (mode == AUTO_MODE) then
      let residual := meter_p - bc.2.1.getD 0
      if bc.2.2.2.getD 30 < |residual| then
        let step := bc.2.2.1.getD 10
        let adj : ℚ := if 0 < residual then step else -step
        let current_bias := env.currentBiasRead.getD 0
        let new_bias := pyInt (max (-500) (min 500 ((current_bias : ℚ) + adj)))
        if new_bias ≠ current_bias then
          (safeWrite env gs "meter_target_power_offset" (new_bias : ℚ) now_ts).1
        else gs
      else gs
    else gs

/-- Observable outcome of one `EMSManager.apply` tick. -/
structure ApplyOut where
  mode : ℕ
  xset : ℤ
  setpointWritten : Option ℤ
  setpointAccepted : Option Bool
  ems : EMSState
  guard : GuardState

/-- Embedding of `EMSManager.apply` (ems_manager.py lines 199-274):
commissioning, decide, clamp and ramp for Import-AC, mode write when the
device reports a different mode, setpoint write (zero write plus baseline
reset when leaving Import-AC), auto bias trim while in Auto.  The ramp
baseline update after the setpoint write is unconditional, exactly as in
the source; `setpointWritten`/`setpointAccepted` record the value passed
to the `ems_power_set` write and the guard verdict the source ignores. -/
def EMSapply (env : ApplyEnv) (s : EdgeStateM) (cid : String) (ems0 : EMSState)
    (gs0 : GuardState) (soc meter_p pv_power : ℚ) (now_dt : ℤ) (now_ts : ℚ) : ApplyOut :=
  let c := commissionIfNeeded env s ems0 gs0 now_ts
  let d := EMSdecide s cid c.1 soc pv_power now_dt
  let ems1 : EMSState := { c.1 with hold_until := d.hold_until }
  let cfg := getBatteryConfig s cid
  let mcw := pyOrQ cfg.max_charge_w s.settings.max_charge_w
  let rr := pyOrQ cfg.max_ramp_rate_w_per_s
    (pyOrQ s.settings.max_ramp_rate_w_per_s s.settings.ramprate)
  let xset :=
    if d.mode = IMPORT_AC_MODE then
      clampRamp mcw rr ems1.last_setpoint_w ems1.last_setpoint_ts now_ts d.setpoint
    else d.setpoint
  let ems2 :=
    if d.mode = IMPORT_AC_MODE then ems1
    else { ems1 with last_setpoint_w := 0, last_setpoint_ts := some now_ts }
  let gs1 :=
    if env.currentModeRead = some d.mode then c.2
    else (safeWrite env c.2 "ems_power_mode" (d.mode : ℚ) now_ts).1
  if d.mode = IMPORT_AC_MODE then
    let w := safeWrite env gs1 "ems_power_set" (xset : ℚ) now_ts
    { mode := d.mode, xset := xset, setpointWritten := some xset, setpointAccepted := w.2,
      ems := { ems2 with last_setpoint_w := xset, last_setpoint_ts := some now_ts },
      guard := w.1 }
  else
    let w := safeWrite env gs1 "ems_power_set" 0 now_ts
    let g2 := biasTrim env s w.1 d.mode meter_p now_ts
    { mode := d.mode, xset := xset, setpointWritten := some 0, setpointAccepted := w.2,
      ems := ems2, guard := g2 }

/-! ## Alert state machine (src/battery_opt/safety_check.py) -/

/-- Debounce constant `DEBOUNCE_ACTIVATE_SEC = 5`. -/
def DEBOUNCE_ACTIVATE_SEC : ℚ := 5

/-- Debounce constant `DEBOUNCE_CLEAR_POLLS = 10` (the source comment
reads: consecutive clears to mark RESOLVED). -/
def DEBOUNCE_CLEAR_POLLS : ℕ := 10

/-- Per-alert state (safety_check.py lines 45-57); `event_id_set`
abstracts whether the uuid has been assigned. -/
structure AlertSt where
  state : String
  first_seen : Option ℚ
  last_seen : Option ℚ
  activate_deadline : Option ℚ
  clear_count : ℕ
  event_id_set : Bool
  count : ℕ
deriving DecidableEq

/-- Fresh `AlertState` (all fields at their constructor defaults). -/
def AlertSt.init : AlertSt := ⟨"CLEAR", none, none, none, 0, false, 0⟩

/-- Embedding of the state transitions of `SafetyCheck._eval_condition`
(safety_check.py lines 157-201).  Emission, intent enqueueing and context
capture are side effects without influence on the transition structure and
are dropped; the heartbeat re-emission inside the ACTIVE/active branch
changes no state. -/
def evalCondition (st : AlertSt) (active : Bool) (now : ℚ) : AlertSt :=
  if active then
    if st.state = "CLEAR" then
      let dl := st.activate_deadline.getD (now + DEBOUNCE_ACTIVATE_SEC)
      if dl ≤ now then
        { st with state := "ACTIVE", activate_deadline := some dl,
                  first_seen := some (st.first_seen.getD now), last_seen := some now,
                  event_id_set := true, count := st.count + 1 }
      else { st with activate_deadline := some dl }
    else if st.state = "ACTIVE" then
      { st with last_seen := some now }
    else
      { st with state := "ACTIVE", last_seen := some now, count := st.count + 1 }
  else
    if st.state = "ACTIVE" then
      let cc := st.clear_count + 1
      if DEBOUNCE_CLEAR_POLLS ≤ cc then
        { st with state := "RESOLVED", clear_count := cc, last_seen := some now }
      else { st with clear_count := cc }
    else
      { st with activate_deadline := none, clear_count := 0 }

/-- Fold of `evalCondition` over a sequence of observations
`(active, now)`. -/
def runAlert (st : AlertSt) (obs : List (Bool × ℚ)) : AlertSt :=
  obs.foldl (fun a o => evalCondition a o.1 o.2) st

/-! ## Concrete instances used by witnesses and counterexamples -/

/-- Register map with the registers the applier writes; all device writes
succeed; the device reports Import-AC mode; bias read returns 0. -/
def envOkAll : ApplyEnv :=
  ⟨[("ems_power_mode", 100), ("ems_power_set", 101), ("manufacturer_code", 102),
    ("feed_power_enable", 103), ("export_power_cap", 104), ("external_meter_enable", 105),
    ("meter_target_power_offset", 106)], fun _ => true, some 4, some 0⟩

/-- Same environment, but the underlying field-bus write to `ems_power_set`
(address 101) raises. -/
def envSetpointFails : ApplyEnv := { envOkAll with deviceOk := fun a => a != 101 }

/-- Static task whose window covers the whole day. -/
def stAllDay : StaticTask := ⟨some "st", some 0, some 86400, none, false, 0, none, 0⟩

/-- Store with an all-day static window for unit B1 and a battery config
with `max_charge_w = 5000` and `max_ramp_rate_w_per_s = 1`. -/
def sRamped : EdgeStateM :=
  ⟨[], [("B1", stAllDay)], Settings.empty, [("B1", ⟨some 5000, some 1⟩)], 2⟩

/-- Store with an all-day static window for unit B1 and
`import_charge_power_w = 400`, no clamp and no ramp configured. -/
def sImport400 : EdgeStateM :=
  ⟨[], [("B1", stAllDay)], { Settings.empty with import_charge_power_w := some 400 }, [], 2⟩

/-- EMS state: commissioned, ramp baseline 100 W recorded at t = 0. -/
def emsBaseline100 : EMSState := ⟨true, 100, some 0, none⟩

/-- EMS state: commissioned, untouched ramp baseline. -/
def emsFresh : EMSState := ⟨true, 0, none, none⟩

/-- One applier tick of claim C2's counterexample: in-window, below
target, decider setpoint 0, baseline 100 W taken 2.5 s ago, ramp rate
1 W/s. -/
def c2run : ApplyOut :=
  EMSapply envOkAll sRamped "B1" emsBaseline100 GuardState.init (1/2) 0 0 3600 (5/2)

/-- One applier tick of claim C3's failing input: in-window, below
target, decider setpoint 400 W, device write to `ems_power_set` raises. -/
def c3run : ApplyOut :=
  EMSapply envSetpointFails sImport400 "B1" emsFresh GuardState.init (1/2) 0 0 3600 10

/-- Write-request trace of claim C4's failing input: ten writes of fresh
values to ten distinct addresses at t = 1.5, 2.30, 2.32, 2.34, 2.36,
2.50, 2.52, 2.54, 2.56, 2.58 s. -/
def c4trace : List (ℚ × ℤ × ℤ) :=
  [(3/2, 1, 1), (23/10, 2, 1), (58/25, 3, 1), (117/50, 4, 1), (59/25, 5, 1),
   (5/2, 6, 1), (63/25, 7, 1), (127/50, 8, 1), (64/25, 9, 1), (129/50, 10, 1)]

/-- Observation sequence of claim C9's failing input: activation (active
at t = 0 and t = 5), nine not-active polls, then an intervening active
poll at t = 15. -/
def c9obs : List (Bool × ℚ) :=
  [(true, 0), (true, 5), (false, 6), (false, 7), (false, 8), (false, 9), (false, 10),
   (false, 11), (false, 12), (false, 13), (false, 14), (true, 15)]

/-- Dynamic payload: service day 20000, window 01:00-02:00, cap 3 kW,
idempotency key k1, revision 2. -/
def pRev2 : TaskPayload :=
  ⟨some "dynamic", some 20000, [(3600, 7200)], none, none, some 3, false, some "k1", some 2,
    none, none⟩

/-- Stored dynamic entry: key k1, revision 1, updated at t = 10. -/
def eRev1 : DynTask := ⟨"t0", [], none, false, 10, "k1", 1⟩

/-- Store holding `eRev1` in the dynamic slot (B1, day 20000). -/
def sWithE : EdgeStateM := ⟨[("B1", [(20000, eRev1)])], [], Settings.empty, [], 2⟩

/-- EMS state: commissioned, ramp baseline 0 W recorded at t = 0. -/
def emsZeroBase : EMSState := ⟨true, 0, some 0, none⟩

/-- Store like `sRamped` but with `max_charge_w = 100`: the configured cap
has been lowered at runtime below an already ramped-up baseline. -/
def sClamp100 : EdgeStateM :=
  ⟨[], [("B1", stAllDay)], Settings.empty, [("B1", ⟨some 100, some 1⟩)], 2⟩

/-- EMS state: commissioned, ramp baseline 1000 W recorded at t = 0. -/
def emsBaseline1000 : EMSState := ⟨true, 1000, some 0, none⟩

/-- Applier tick of the clamp half of claim C2's counterexample: baseline
1000 W above the lowered 100 W cap, ramp 1 W/s, tick at t = 1 s. -/
def c2clampRun : ApplyOut :=
  EMSapply envOkAll sClamp100 "B1" emsBaseline1000 GuardState.init (1/2) 0 0 3600 1

/-- The payload `pRev2` with an explicit `updated_at = 7` carried in the
message itself (so a replay is not restamped with the receive time). -/
def pStamped : TaskPayload := { pRev2 with updated_at := some 7 }

/-! ## Association-list lemmas -/

theorem lookupA_setA_self {α β : Type} [DecidableEq α] (l : List (α × β)) (k : α) (v : β) :
    lookupA (setA l k v) k = some v := by
  induction l with
  | nil => simp [setA, lookupA]
  | cons hd t ih =>
    obtain ⟨k1, v1⟩ := hd
    by_cases hk : k1 = k
    · simp [setA, hk, lookupA]
    · simp [setA, hk, lookupA, ih]

theorem lookupA_setA_ne {α β : Type} [DecidableEq α] (l : List (α × β)) (k k0 : α) (v : β)
    (hne : k0 ≠ k) : lookupA (setA l k v) k0 = lookupA l k0 := by
  induction l with
  | nil => simp [setA, lookupA, hne.symm]
  | cons hd t ih =>
    obtain ⟨k1, v1⟩ := hd
    by_cases hk : k1 = k
    · subst hk
      simp [setA, lookupA, hne.symm]
    · simp [setA, hk, lookupA, ih]

theorem setA_of_lookupA_eq {α β : Type} [DecidableEq α] (l : List (α × β)) (k : α) (v : β)
    (h : lookupA l k = some v) : setA l k v = l := by
  induction l with
  | nil => simp [lookupA] at h
  | cons hd t ih =>
    obtain ⟨k1, v1⟩ := hd
    by_cases hk : k1 = k
    · subst hk
      simp [lookupA] at h
      simp [setA, h]
    · simp [lookupA, hk] at h
      simp [setA, hk, ih h]

theorem setA_of_lookupA_none {α β : Type} [DecidableEq α] (l : List (α × β)) (k : α) (v : β)
    (h : lookupA l k = none) : setA l k v = l ++ [(k, v)] := by
  induction l with
  | nil => simp [setA]
  | cons hd t ih =>
    obtain ⟨k1, v1⟩ := hd
    by_cases hk : k1 = k
    · simp [lookupA, hk] at h
    · simp [lookupA, hk] at h
      simp [setA, hk, ih h]

theorem setA_setA {α β : Type} [DecidableEq α] (l : List (α × β)) (k : α) (v w : β) :
    setA (setA l k v) k w = setA l k w := by
  induction l with
  | nil => simp [setA]
  | cons hd t ih =>
    obtain ⟨k1, v1⟩ := hd
    by_cases hk : k1 = k
    · simp [setA, hk]
    · simp [setA, hk, ih]

theorem lookupA_filter_key {α β : Type} [DecidableEq α] (l : List (α × β)) (f : α → Bool)
    (k : α) : lookupA (l.filter (fun p => f p.1)) k = if f k then lookupA l k else none := by
  induction l with
  | nil => simp [lookupA]
  | cons hd t ih =>
    obtain ⟨k1, v1⟩ := hd
    by_cases hf : f k1
    · by_cases hk : k1 = k
      · subst hk
        simp [List.filter, hf, lookupA]
      · simp [List.filter, hf, lookupA, hk, ih]
    · by_cases hk : k1 = k
      · subst hk
        simp [List.filter, hf, lookupA, ih]
      · simp [List.filter, hf, lookupA, hk, ih]

theorem lookupA_mem {α β : Type} [DecidableEq α] (l : List (α × β)) (k : α) (v : β)
    (h : lookupA l k = some v) : (k, v) ∈ l := by
  induction l with
  | nil => simp [lookupA] at h
  | cons hd t ih =>
    obtain ⟨k1, v1⟩ := hd
    by_cases hk : k1 = k
    · subst hk
      simp [lookupA] at h
      simp [h]
    · simp [lookupA, hk] at h
      exact List.mem_cons_of_mem _ (ih h)

theorem mem_setA {α β : Type} [DecidableEq α] (l : List (α × β)) (k : α) (v : β) (cm : α × β)
    (h : cm ∈ setA l k v) : cm = (k, v) ∨ cm ∈ l := by
  induction l with
  | nil => simp [setA] at h; simp [h]
  | cons hd t ih =>
    obtain ⟨k1, v1⟩ := hd
    by_cases hk : k1 = k
    · simp [setA, hk] at h
      rcases h with h | h
      · exact Or.inl h
      · exact Or.inr (List.mem_cons_of_mem _ h)
    · simp [setA, hk] at h
      rcases h with h | h
      · exact Or.inr (by simp [h])
      · rcases ih h with h2 | h2
        · exact Or.inl h2
        · exact Or.inr (List.mem_cons_of_mem _ h2)

theorem mem_eraseA {α β : Type} [DecidableEq α] (l : List (α × β)) (k : α) (cm : α × β)
    (h : cm ∈ eraseA l k) : cm ∈ l := by
  induction l with
  | nil => simp [eraseA] at h
  | cons hd t ih =>
    obtain ⟨k1, v1⟩ := hd
    by_cases hk : k1 = k
    · simp [eraseA, hk] at h
      exact List.mem_cons_of_mem _ h
    · simp [eraseA, hk] at h
      rcases h with h | h
      · simp [h]
      · exact List.mem_cons_of_mem _ (ih h)

theorem mem_keys_setA {α β : Type} [DecidableEq α] (l : List (α × β)) (k a : α) (v : β)
    (h : a ∈ (setA l k v).map Prod.fst) : a ∈ l.map Prod.fst ∨ a = k := by
  simp only [List.mem_map] at h
  obtain ⟨cm, hm, he⟩ := h
  rcases mem_setA l k v cm hm with h2 | h2
  · right; rw [← he, h2]
  · left; exact List.mem_map.mpr ⟨cm, h2, he⟩

theorem setA_keys_nodup {α β : Type} [DecidableEq α] (l : List (α × β)) (k : α) (v : β)
    (h : (l.map Prod.fst).Nodup) : ((setA l k v).map Prod.fst).Nodup := by
  induction l with
  | nil => simp [setA]
  | cons hd t ih =>
    obtain ⟨k1, v1⟩ := hd
    simp only [List.map_cons, List.nodup_cons] at h
    by_cases hk : k1 = k
    · subst hk
      have e : setA ((k1, v1) :: t) k1 v = (k1, v) :: t := by simp [setA]
      rw [e]
      simp only [List.map_cons, List.nodup_cons]
      exact h
    · have e : setA ((k1, v1) :: t) k v = (k1, v1) :: setA t k v := by simp [setA, hk]
      rw [e]
      simp only [List.map_cons, List.nodup_cons]
      refine ⟨fun hm => ?_, ih h.2⟩
      rcases mem_keys_setA t k k1 v hm with h2 | h2
      · exact h.1 h2
      · exact hk h2

theorem eraseA_sublist {α β : Type} [DecidableEq α] (l : List (α × β)) (k : α) :
    List.Sublist (eraseA l k) l := by
  induction l with
  | nil => simp [eraseA]
  | cons hd t ih =>
    obtain ⟨k1, v1⟩ := hd
    by_cases hk : k1 = k
    · have e : eraseA ((k1, v1) :: t) k = t := by simp [eraseA, hk]
      rw [e]
      exact List.sublist_cons_self _ _
    · have e : eraseA ((k1, v1) :: t) k = (k1, v1) :: eraseA t k := by simp [eraseA, hk]
      rw [e]
      exact List.Sublist.cons₂ _ ih

theorem lookupA_none_of_not_mem_keys {α β : Type} [DecidableEq α] (l : List (α × β)) (k : α)
    (h : k ∉ l.map Prod.fst) : lookupA l k = none := by
  induction l with
  | nil => rfl
  | cons hd t ih =>
    obtain ⟨k1, v1⟩ := hd
    simp only [List.map_cons, List.mem_cons, not_or] at h
    have hne : ¬k1 = k := fun hh => h.1 hh.symm
    simp [lookupA, hne, ih h.2]

theorem lookupA_isEmpty_false {α β : Type} [DecidableEq α] (l : List (α × β)) (k : α) (v : β)
    (h : lookupA l k = some v) : l.isEmpty = false := by
  cases l with
  | nil => simp [lookupA] at h
  | cons hd t => rfl

/-! ## Garbage-collector lemmas -/

theorem keepDay_true_iff (today d : ℤ) : keepDay today d = true ↔ (d = today ∨ d = today + 1) := by
  simp [keepDay]

theorem gcDynList_cons (today : ℤ) (c : String) (dm : List (ℤ × DynTask))
    (t : List (String × List (ℤ × DynTask))) :
    gcDynList today ((c, dm) :: t)
      = if (dm.filter (fun de => keepDay today de.1)).isEmpty then gcDynList today t
        else (c, dm.filter (fun de => keepDay today de.1)) :: gcDynList today t := by
  unfold gcDynList
  rw [List.map_cons, List.filter_cons]
  by_cases h : (dm.filter (fun de => keepDay today de.1)).isEmpty
  · simp [h]
  · simp [h]

theorem gcDynList_append (today : ℤ) (a b : List (String × List (ℤ × DynTask))) :
    gcDynList today (a ++ b) = gcDynList today a ++ gcDynList today b := by
  unfold gcDynList
  rw [List.map_append, List.filter_append]

theorem filter_keep_idem (today : ℤ) (xs : List (ℤ × DynTask)) :
    (xs.filter (fun de => keepDay today de.1)).filter (fun de => keepDay today de.1)
      = xs.filter (fun de => keepDay today de.1) := by
  induction xs with
  | nil => rfl
  | cons hd t ih =>
    by_cases h : keepDay today hd.1 <;> simp [List.filter_cons, h, ih]

theorem gcDynList_idem (today : ℤ) (l : List (String × List (ℤ × DynTask))) :
    gcDynList today (gcDynList today l) = gcDynList today l := by
  induction l with
  | nil => rfl
  | cons hd t ih =>
    obtain ⟨c, dm⟩ := hd
    rw [gcDynList_cons]
    by_cases he : (dm.filter (fun de => keepDay today de.1)).isEmpty
    · rw [if_pos he, ih]
    · rw [if_neg he, gcDynList_cons, filter_keep_idem, if_neg he, ih]

theorem lookupA_gcDynList_none (today : ℤ) (l : List (String × List (ℤ × DynTask)))
    (cid : String) (h : lookupA l cid = none) : lookupA (gcDynList today l) cid = none := by
  induction l with
  | nil => rfl
  | cons hd t ih =>
    obtain ⟨c, dm⟩ := hd
    by_cases hc : c = cid
    · simp [lookupA, hc] at h
    · simp only [lookupA, if_neg hc] at h
      rw [gcDynList_cons]
      by_cases he : (dm.filter (fun de => keepDay today de.1)).isEmpty
      · rw [if_pos he]
        exact ih h
      · rw [if_neg he]
        simp only [lookupA, if_neg hc]
        exact ih h

theorem lookupA_gcDynList (today : ℤ) (l : List (String × List (ℤ × DynTask))) (cid : String)
    (hnd : (l.map Prod.fst).Nodup) :
    lookupA (gcDynList today l) cid
      = if (((lookupA l cid).getD []).filter (fun de => keepDay today de.1)).isEmpty then none
        else some (((lookupA l cid).getD []).filter (fun de => keepDay today de.1)) := by
  induction l with
  | nil => simp [gcDynList, lookupA]
  | cons hd t ih =>
    obtain ⟨c, dm⟩ := hd
    simp only [List.map_cons, List.nodup_cons] at hnd
    rw [gcDynList_cons]
    by_cases hc : c = cid
    · subst hc
      have ht : lookupA t c = none := lookupA_none_of_not_mem_keys t c hnd.1
      by_cases he : (dm.filter (fun de => keepDay today de.1)).isEmpty
      · rw [if_pos he, lookupA_gcDynList_none today t c ht]
        simp [lookupA, he]
      · rw [if_neg he]
        simp [lookupA, he]
    · have hl : lookupA ((c, dm) :: t) cid = lookupA t cid := by simp [lookupA, hc]
      rw [hl]
      by_cases he : (dm.filter (fun de => keepDay today de.1)).isEmpty
      · rw [if_pos he]
        exact ih hnd.2
      · rw [if_neg he]
        simp only [lookupA, if_neg hc]
        exact ih hnd.2

theorem dynSlot_gc (today : ℤ) (l : List (String × List (ℤ × DynTask))) (cid : String)
    (sd : ℤ) (hnd : (l.map Prod.fst).Nodup) :
    dynSlot (gcDynList today l) cid sd
      = if keepDay today sd then dynSlot l cid sd else none := by
  unfold dynSlot
  rw [lookupA_gcDynList today l cid hnd]
  have h1 := lookupA_filter_key ((lookupA l cid).getD []) (keepDay today) sd
  by_cases he : (((lookupA l cid).getD []).filter (fun de => keepDay today de.1)).isEmpty
  · rw [if_pos he]
    have h0 : ((lookupA l cid).getD []).filter (fun de => keepDay today de.1) = [] :=
      List.isEmpty_iff.mp he
    rw [h0] at h1
    by_cases hk : keepDay today sd
    · rw [if_pos hk] at h1
      rw [if_pos hk]
      simpa [lookupA] using h1
    · rw [if_neg hk]
      simp [lookupA]
  · rw [if_neg he]
    dsimp only [Option.getD]
    exact h1

/-! ## Merge lemmas -/

theorem mergeDyn_sd (pb : List (ℤ × DynTask)) (sd : ℤ) (N : DynTask) :
    lookupA (mergeDyn pb sd N) sd
      = some (match lookupA pb sd with
              | none => N
              | some E => if takesNew N E then N else E) := by
  unfold mergeDyn
  cases hEx : lookupA pb sd with
  | none => rw [lookupA_setA_self]
  | some E =>
    dsimp only
    by_cases h1 : (N.override && !E.override) = true
    · have ht : takesNew N E := by
        unfold takesNew
        refine Or.inl ?_
        cases ho : N.override <;> cases he2 : E.override <;> simp [ho, he2] at h1 ⊢
      rw [if_pos h1, lookupA_setA_self, if_pos ht]
    · rw [if_neg h1]
      by_cases h2 : N.idempotency_key ≠ "" ∧ E.idempotency_key ≠ "" ∧
          N.idempotency_key = E.idempotency_key
      · rw [if_pos h2]
        by_cases h3 : E.revision < N.revision
        · have ht : takesNew N E := by
            unfold takesNew
            exact Or.inr (Or.inl ⟨h2.1, h2.2.2, h3⟩)
          rw [if_pos h3, lookupA_setA_self, if_pos ht]
        · rw [if_neg h3]
          by_cases h4 : N.revision = E.revision ∧ E.updated_at < N.updated_at
          · have ht : takesNew N E := by
              unfold takesNew
              exact Or.inr (Or.inr (Or.inl ⟨h2.1, h2.2.2, h4.1, h4.2⟩))
            rw [if_pos h4, lookupA_setA_self, if_pos ht]
          · have hnt : ¬takesNew N E := by
              intro ht
              unfold takesNew at ht
              rcases ht with hov | ⟨hk, hke, hrev⟩ | ⟨hk, hke, hre, hup⟩ | hnk
              · rw [hov.1, hov.2] at h1
                exact h1 rfl
              · exact h3 hrev
              · exact h4 ⟨hre, hup⟩
              · exact hnk h2
            rw [if_neg h4, hEx, if_neg hnt]
      · have ht : takesNew N E := by
          unfold takesNew
          exact Or.inr (Or.inr (Or.inr h2))
        rw [if_neg h2, lookupA_setA_self, if_pos ht]

theorem mergeDyn_cases (pb : List (ℤ × DynTask)) (sd : ℤ) (N : DynTask) :
    mergeDyn pb sd N = setA pb sd N ∨
      ∃ E, lookupA pb sd = some E ∧ dropCond N E ∧ mergeDyn pb sd N = pb := by
  unfold mergeDyn
  cases hEx : lookupA pb sd with
  | none => exact Or.inl rfl
  | some E =>
    dsimp only
    by_cases h1 : (N.override && !E.override) = true
    · rw [if_pos h1]
      exact Or.inl rfl
    · rw [if_neg h1]
      by_cases h2 : N.idempotency_key ≠ "" ∧ E.idempotency_key ≠ "" ∧
          N.idempotency_key = E.idempotency_key
      · rw [if_pos h2]
        by_cases h3 : E.revision < N.revision
        · rw [if_pos h3]
          exact Or.inl rfl
        · rw [if_neg h3]
          by_cases h4 : N.revision = E.revision ∧ E.updated_at < N.updated_at
          · rw [if_pos h4]
            exact Or.inl rfl
          · rw [if_neg h4]
            exact Or.inr ⟨E, rfl, show dropCond N E from ⟨h1, h2, h3, h4⟩, rfl⟩
      · rw [if_neg h2]
        exact Or.inl rfl

theorem mergeDyn_self (pb : List (ℤ × DynTask)) (sd : ℤ) (N : DynTask)
    (h : lookupA pb sd = some N) : mergeDyn pb sd N = pb := by
  unfold mergeDyn
  rw [h]
  dsimp only
  have hov : (N.override && !N.override) = false := by cases N.override <;> rfl
  rw [if_neg (by simp [hov])]
  by_cases h2 : N.idempotency_key ≠ "" ∧ N.idempotency_key ≠ "" ∧
      N.idempotency_key = N.idempotency_key
  · rw [if_pos h2, if_neg (lt_irrefl _),
      if_neg (fun hc : N.revision = N.revision ∧ N.updated_at < N.updated_at =>
        lt_irrefl _ hc.2)]
  · rw [if_neg h2]
    exact setA_of_lookupA_eq pb sd N h

theorem mergeDyn_fresh (pb : List (ℤ × DynTask)) (sd : ℤ) (N : DynTask)
    (h : lookupA pb sd = none) : mergeDyn pb sd N = setA pb sd N := by
  unfold mergeDyn
  rw [h]

theorem mergeDyn_drop (pb : List (ℤ × DynTask)) (sd : ℤ) (N E : DynTask)
    (hEx : lookupA pb sd = some E) (hd : dropCond N E) : mergeDyn pb sd N = pb := by
  unfold mergeDyn
  rw [hEx]
  dsimp only
  rw [if_neg hd.1, if_pos hd.2.1, if_neg hd.2.2.1, if_neg hd.2.2.2]

theorem mergeDyn_keys_nodup (pb : List (ℤ × DynTask)) (sd : ℤ) (N : DynTask)
    (h : (pb.map Prod.fst).Nodup) : ((mergeDyn pb sd N).map Prod.fst).Nodup := by
  rcases mergeDyn_cases pb sd N with hm | ⟨E, _, _, hm⟩
  · rw [hm]
    exact setA_keys_nodup pb sd N h
  · rw [hm]
    exact h

/-! ## Numeric helper lemmas -/

theorem pyInt_of_nonneg (q : ℚ) (h : 0 ≤ q) : pyInt q = ⌊q⌋ := by
  unfold pyInt
  rw [if_neg (not_lt.mpr h)]

theorem pyInt_max_zero (q : ℚ) : pyInt (max 0 q) = max 0 (pyInt q) := by
  rcases le_total 0 q with h | h
  · rw [max_eq_right h, pyInt_of_nonneg q h,
      max_eq_right (Int.le_floor.mpr (by exact_mod_cast h))]
  · rw [max_eq_left h]
    have h1 : pyInt q ≤ 0 := by
      unfold pyInt
      split
      · exact Int.ceil_le.mpr (by exact_mod_cast h)
      · exact Int.floor_nonpos h
    rw [max_eq_left h1]
    simp [pyInt]

theorem ite_lt_max (a b : ℚ) : (if a < b then b else a) = max a b := by
  by_cases h : a < b
  · rw [if_pos h, max_eq_right h.le]
  · rw [if_neg h, max_eq_left (not_lt.mp h)]

/-! ## Write-guard lemmas -/

theorem resetWindow_last_value (gs : GuardState) (now : ℚ) :
    (WriteGuard.resetWindow gs now).last_value = gs.last_value := by
  unfold WriteGuard.resetWindow
  split <;> rfl

theorem resetWindow_last_write_ts (gs : GuardState) (now : ℚ) :
    (WriteGuard.resetWindow gs now).last_write_ts = gs.last_write_ts := by
  unfold WriteGuard.resetWindow
  split <;> rfl

/-! ## Claim theorems -/

/-- Claim C5: `WriteGuard.attempt` returns dropped and leaves the latch
maps unchanged whenever the dedupe, per-register-interval or global-rate
checks block the write or the write action raises; the value is latched
(value and timestamp recorded, window count incremented) exactly when the
action is invoked and completes, in which case the call returns
accepted. -/
theorem writeguard_latch_discipline (gs : GuardState) (addr val : ℤ) (now : ℚ) (ok : Bool) :
    ((WriteGuard.attempt gs addr val now ok).accepted = true ↔
      (WriteGuard.attempt gs addr val now ok).invoked = true ∧ ok = true) ∧
    ((WriteGuard.attempt gs addr val now ok).accepted = false →
      (WriteGuard.attempt gs addr val now ok).state.last_value = gs.last_value ∧
      (WriteGuard.attempt gs addr val now ok).state.last_write_ts = gs.last_write_ts) ∧
    ((WriteGuard.attempt gs addr val now ok).accepted = true →
      (WriteGuard.attempt gs addr val now ok).state.last_value = setA gs.last_value addr val ∧
      (WriteGuard.attempt gs addr val now ok).state.last_write_ts
        = setA gs.last_write_ts addr now ∧
      (WriteGuard.attempt gs addr val now ok).state.window_count
        = (WriteGuard.resetWindow gs now).window_count + 1) ∧
    (lookupA gs.last_value addr = some val →
      (WriteGuard.attempt gs addr val now ok).invoked = false) ∧
    (now - ((lookupA gs.last_write_ts addr).getD 0) < WriteGuard.MIN_INTERVAL →
      (WriteGuard.attempt gs addr val now ok).invoked = false) ∧
    (WriteGuard.MAX_WRITES ≤ (WriteGuard.resetWindow gs now).window_count →
      (WriteGuard.attempt gs addr val now ok).accepted = false) := by
  have hlv := resetWindow_last_value gs now
  have hlt := resetWindow_last_write_ts gs now
  simp only [WriteGuard.attempt, hlv, hlt]
  split_ifs with h1 h2 h3 h4 <;> simp_all

/-- Witness for C5: a fresh guard accepts and latches a write; a guard
already holding the same value drops without invoking the action. -/
theorem writeguard_latch_discipline_witness :
    (WriteGuard.attempt GuardState.init 1 7 2 true).accepted = true ∧
    (WriteGuard.attempt GuardState.init 1 7 2 true).state.last_value
      = setA GuardState.init.last_value 1 7 ∧
    (WriteGuard.attempt ⟨[(7, 5)], [], 0, 0⟩ 7 5 2 true).invoked = false := by
  refine ⟨?_, ?_, ?_⟩
  · exact (writeguard_latch_discipline GuardState.init 1 7 2 true).1.mpr ⟨by decide, rfl⟩
  · exact ((writeguard_latch_discipline GuardState.init 1 7 2 true).2.2.1 (by decide)).1
  · exact (writeguard_latch_discipline ⟨[(7, 5)], [], 0, 0⟩ 7 5 2 true).2.2.2.1 (by decide)

/-- Claim C4, evaluation at the failing input: the guard accepts all ten
writes of `c4trace`, nine of which fall inside the rolling one-second
interval [2.30 s, 3.30 s) - more than the claimed bound of five.  The
fixed-window reset at t = 2.50 s lets a second burst through even though
less than a second has passed since the 2.30-2.36 s burst. -/
theorem writeguard_rolling_window_violated :
    (runGuard GuardState.init c4trace).2.map Prod.snd = List.replicate 10 true ∧
    acceptedWithin (runGuard GuardState.init c4trace).2 (23/10) (33/10) = 9 ∧
    (33/10 : ℚ) = 23/10 + 1 ∧
    WriteGuard.MAX_WRITES < 9 := by decide

/-- Claim C9, evaluation at the failing input: after nine not-active
polls an active poll keeps the alert ACTIVE with `clear_count` still 9
(not reset), so the very next not-active poll - a run of one consecutive
clear - moves it to RESOLVED. -/
theorem alert_resolved_without_consecutive_clears :
    (runAlert AlertSt.init c9obs).state = "ACTIVE" ∧
    (runAlert AlertSt.init c9obs).clear_count = 9 ∧
    (evalCondition (runAlert AlertSt.init c9obs) false 16).state = "RESOLVED" := by decide

/-- Claim C10: a bus task message with a null or absent data field reaches
`update_task` as the empty dict (not `None`), is rejected as a dynamic
task with a missing `service_day`, and leaves the state - both task
stores included - unchanged; the null-payload fallback path is therefore
never invoked from the bus handler. -/
theorem null_task_message_is_noop (s : EdgeStateM) (cid : String) (now : ℚ) (today : ℤ) :
    onTaskMessage s cid none now today = updateTask s cid (some emptyTaskPayload) now today ∧
    updateTask s cid (some emptyTaskPayload) now today = s := by
  refine ⟨rfl, ?_⟩
  unfold updateTask
  dsimp only
  rw [if_neg (by decide : ¬(strLower (emptyTaskPayload.task_type.getD "") = "static"))]
  rfl

/-- Claim C3, evaluation at the failing input: the device write to
`ems_power_set` raises, the write guard reports dropped and latches
nothing, yet the applier still moves its ramp baseline from (0, unset) to
(400 W, t = 10). -/
theorem baseline_updated_despite_failed_write :
    c3run.setpointWritten = some 400 ∧
    c3run.setpointAccepted = some false ∧
    lookupA c3run.guard.last_value 101 = none ∧
    lookupA c3run.guard.last_write_ts 101 = none ∧
    c3run.ems.last_setpoint_w = 400 ∧
    c3run.ems.last_setpoint_ts = some 10 ∧
    emsFresh.last_setpoint_w = 0 ∧
    emsFresh.last_setpoint_ts = none := by decide

/-- Counterexample to claim C2 as stated, refuting both halves.  Ramp
half: an Import-AC tick with `max_charge_w = 5000 > 0`, `ramp_rate = 1`
and a baseline of 100 W taken 2.5 s earlier writes 97 W - `int()`
truncation of 100 - 2.5 - so the step |97 - 100| = 3 exceeds
`ramp_rate * dt = 2.5`.  Clamp half: with `max_charge_w = 100 > 0` and a
stored baseline of 1000 W (the cap was lowered at runtime below the
ramped-up baseline) the tick at t = 1 s writes int(1000 - 1) = 999 W,
outside [0, 100]: the clamp acts on the decider target before the ramp
stage, and the ramp stage then pulls the written value back toward the
out-of-range baseline. -/
theorem import_setpoint_bounds_violated :
    (c2run.mode = IMPORT_AC_MODE ∧
     pyOrQ (getBatteryConfig sRamped "B1").max_charge_w sRamped.settings.max_charge_w
       = some 5000 ∧
     pyOrQ (getBatteryConfig sRamped "B1").max_ramp_rate_w_per_s
       (pyOrQ sRamped.settings.max_ramp_rate_w_per_s sRamped.settings.ramprate) = some 1 ∧
     emsBaseline100.last_setpoint_ts = some 0 ∧
     emsBaseline100.last_setpoint_w = 100 ∧
     c2run.setpointWritten = some 97 ∧
     ¬(|(97 : ℚ) - 100| ≤ 1 * max (1/1000) (5/2 - 0))) ∧
    (c2clampRun.mode = IMPORT_AC_MODE ∧
     pyOrQ (getBatteryConfig sClamp100 "B1").max_charge_w sClamp100.settings.max_charge_w
       = some 100 ∧
     c2clampRun.setpointWritten = some 999 ∧
     ¬((999 : ℚ) ≤ 100)) := by decide

/-- Claim C1: on every call, `EMSManager.decide` behaves exactly as the
spec states - inside a resolved charge window at (99 percent of) target
SOC it returns (IMPORT_AC, 0) and latches `hold_until` to the covering
window's end exactly when no hold is set or the existing one has passed;
below target it returns (IMPORT_AC, max(0, eff)) with
`eff = max(import_charge_power_w - pv_power, min_import_w)` when the base
power is positive (else 0), capped by a positive `max_import_limit_kw` of
the active task; outside every window it returns (AUTO, 0) and clears the
hold. -/
theorem decide_matches_spec (s : EdgeStateM) (cid : String) (ems : EMSState)
    (soc pv_power : ℚ) (now_dt : ℤ) :
    EMSdecide s cid ems soc pv_power now_dt = decideSpecC1 s cid ems soc pv_power now_dt := by
  unfold EMSdecide decideSpecC1
  dsimp only
  by_cases hw : inAnyWindow (todOf now_dt) (getChargeWindows s cid (dayOf now_dt)) = true
  · rw [if_pos hw, if_pos hw]
    by_cases hsoc : (s.settings.target_soc_percent.getD 100) / 100 * (99/100) ≤ soc
    · rw [if_pos hsoc, if_pos hsoc]
      congr 1
      cases ems.hold_until with
      | none => simp [Option.all]
      | some h => by_cases hle : h ≤ now_dt <;> simp [Option.all, hle]
    · rw [if_neg hsoc, if_neg hsoc, ite_lt_max, pyInt_max_zero]
  · rw [if_neg hw, if_neg hw]

/-! ## Clamp-and-ramp lemmas (claim C2) -/

theorem clampStage_nonneg (mcw : Option ℚ) (x0 : ℤ) : 0 ≤ clampStage mcw x0 := by
  have hx1 : (0 : ℤ) ≤ if x0 < 0 then 0 else x0 := by split <;> omega
  rcases mcw with _ | m
  · exact hx1
  · unfold clampStage
    dsimp only
    by_cases h : 0 < m ∧ m < (((if x0 < 0 then 0 else x0 : ℤ)) : ℚ)
    · rw [if_pos h, pyInt_of_nonneg m h.1.le]
      exact Int.le_floor.mpr (by exact_mod_cast h.1.le)
    · rw [if_neg h]
      exact hx1

theorem clampStage_le (m : ℚ) (x0 : ℤ) (hm : 0 < m) :
    (clampStage (some m) x0 : ℚ) ≤ m := by
  unfold clampStage
  dsimp only
  by_cases h : 0 < m ∧ m < (((if x0 < 0 then 0 else x0 : ℤ)) : ℚ)
  · rw [if_pos h, pyInt_of_nonneg m hm.le]
    exact_mod_cast Int.floor_le m
  · rw [if_neg h]
    rcases not_and_or.mp h with h2 | h2
    · exact absurd hm h2
    · exact le_of_not_lt h2

theorem rampStage_bounds (rr : Option ℚ) (last : ℤ) (ts : Option ℚ) (now : ℚ) (x2 : ℤ)
    (m : ℚ) (hl0 : 0 ≤ last) (hlm : (last : ℚ) ≤ m) (hx2 : 0 ≤ x2) (hx2m : (x2 : ℚ) ≤ m) :
    0 ≤ rampStage rr last ts now x2 ∧ (rampStage rr last ts now x2 : ℚ) ≤ m := by
  rcases rr with _ | r
  · exact ⟨hx2, hx2m⟩
  rcases ts with _ | ts
  · exact ⟨hx2, hx2m⟩
  unfold rampStage
  dsimp only
  by_cases hr : 0 < r
  swap
  · rw [if_neg hr]
    exact ⟨hx2, hx2m⟩
  rw [if_pos hr]
  have hM : 0 < r * max (1/1000) (now - ts) :=
    mul_pos hr (lt_of_lt_of_le (by norm_num) (le_max_left _ _))
  by_cases htr : r * max (1/1000) (now - ts) < |((x2 - last : ℤ) : ℚ)|
  swap
  · rw [if_neg htr]
    exact ⟨hx2, hx2m⟩
  rw [if_pos htr]
  by_cases hdir : 0 < x2 - last
  · rw [if_pos hdir]
    have harg : (0 : ℚ) ≤ (last : ℚ) + r * max (1/1000) (now - ts) :=
      add_nonneg (by exact_mod_cast hl0) hM.le
    rw [pyInt_of_nonneg _ harg, Int.floor_int_add]
    have hfl0 : 0 ≤ ⌊r * max (1/1000) (now - ts)⌋ := Int.le_floor.mpr (by exact_mod_cast hM.le)
    have habs : |((x2 - last : ℤ) : ℚ)| = ((x2 - last : ℤ) : ℚ) :=
      abs_of_pos (by exact_mod_cast hdir)
    rw [habs] at htr
    have hfl : (⌊r * max (1/1000) (now - ts)⌋ : ℚ) ≤ r * max (1/1000) (now - ts) :=
      Int.floor_le _
    constructor
    · omega
    · push_cast at htr ⊢
      linarith
  · rw [if_neg hdir]
    have habs : |((x2 - last : ℤ) : ℚ)| = -((x2 - last : ℤ) : ℚ) :=
      abs_of_nonpos (by exact_mod_cast (not_lt.mp hdir))
    rw [habs] at htr
    push_cast at htr
    have hx2lt : (x2 : ℚ) < (last : ℚ) - r * max (1/1000) (now - ts) := by linarith
    have harg : (0 : ℚ) ≤ (last : ℚ) - r * max (1/1000) (now - ts) :=
      le_trans (by exact_mod_cast hx2) hx2lt.le
    rw [pyInt_of_nonneg _ harg]
    constructor
    · exact Int.le_floor.mpr (by exact_mod_cast harg)
    · exact le_trans (Int.floor_le _) (by linarith [hM.le])

theorem rampStage_step (r : ℚ) (last : ℤ) (ts now : ℚ) (x2 : ℤ)
    (hr : 0 < r) (hl0 : 0 ≤ last) (hx2 : 0 ≤ x2) :
    |rampStage (some r) last (some ts) now x2 - last| ≤ ⌈r * max (1/1000) (now - ts)⌉ := by
  unfold rampStage
  dsimp only
  rw [if_pos hr]
  have hM : 0 < r * max (1/1000) (now - ts) :=
    mul_pos hr (lt_of_lt_of_le (by norm_num) (le_max_left _ _))
  by_cases htr : r * max (1/1000) (now - ts) < |((x2 - last : ℤ) : ℚ)|
  swap
  · rw [if_neg htr]
    have h1 : |((x2 - last : ℤ) : ℚ)| ≤ (⌈r * max (1/1000) (now - ts)⌉ : ℚ) :=
      le_trans (not_lt.mp htr) (Int.le_ceil _)
    rw [← Int.cast_abs] at h1
    exact_mod_cast h1
  rw [if_pos htr]
  by_cases hdir : 0 < x2 - last
  · rw [if_pos hdir]
    have harg : (0 : ℚ) ≤ (last : ℚ) + r * max (1/1000) (now - ts) :=
      add_nonneg (by exact_mod_cast hl0) hM.le
    rw [pyInt_of_nonneg _ harg, Int.floor_int_add, add_sub_cancel_left]
    rw [abs_of_nonneg (Int.le_floor.mpr (by exact_mod_cast hM.le))]
    exact Int.floor_le_ceil _
  · rw [if_neg hdir]
    have habs : |((x2 - last : ℤ) : ℚ)| = -((x2 - last : ℤ) : ℚ) :=
      abs_of_nonpos (by exact_mod_cast (not_lt.mp hdir))
    rw [habs] at htr
    push_cast at htr
    have harg : (0 : ℚ) ≤ (last : ℚ) - r * max (1/1000) (now - ts) := by
      have : (0 : ℚ) ≤ (x2 : ℚ) := by exact_mod_cast hx2
      linarith
    have hfl : ⌊(last : ℚ) - r * max (1/1000) (now - ts)⌋
        = last - ⌈r * max (1/1000) (now - ts)⌉ := by
      rw [sub_eq_add_neg, Int.floor_int_add, Int.floor_neg, ← sub_eq_add_neg]
    rw [pyInt_of_nonneg _ harg, hfl, sub_sub_cancel_left, abs_neg,
      abs_of_nonneg (Int.ceil_nonneg hM.le)]

theorem rampStage_bounds_general (rr : Option ℚ) (last : ℤ) (ts : Option ℚ) (now : ℚ)
    (x2 : ℤ) (m : ℚ) (hx2 : 0 ≤ x2) (hx2m : (x2 : ℚ) ≤ m) (hm : 0 < m) :
    min 0 last ≤ rampStage rr last ts now x2 ∧
    (rampStage rr last ts now x2 : ℚ) ≤ max (last : ℚ) m := by
  have hbase : min 0 last ≤ x2 ∧ (x2 : ℚ) ≤ max (last : ℚ) m :=
    ⟨le_trans (min_le_left _ _) hx2, le_trans hx2m (le_max_right _ _)⟩
  rcases rr with _ | r
  · exact hbase
  rcases ts with _ | ts
  · exact hbase
  unfold rampStage
  dsimp only
  by_cases hr : 0 < r
  swap
  · rw [if_neg hr]
    exact hbase
  rw [if_pos hr]
  have hM : 0 < r * max (1/1000) (now - ts) :=
    mul_pos hr (lt_of_lt_of_le (by norm_num) (le_max_left _ _))
  by_cases htr : r * max (1/1000) (now - ts) < |((x2 - last : ℤ) : ℚ)|
  swap
  · rw [if_neg htr]
    exact hbase
  rw [if_pos htr]
  by_cases hdir : 0 < x2 - last
  · rw [if_pos hdir]
    have habs : |((x2 - last : ℤ) : ℚ)| = ((x2 - last : ℤ) : ℚ) :=
      abs_of_pos (by exact_mod_cast hdir)
    rw [habs] at htr
    have hvlt : (last : ℚ) + r * max (1/1000) (now - ts) < (x2 : ℚ) := by
      push_cast at htr
      linarith
    unfold pyInt
    by_cases hv : (last : ℚ) + r * max (1/1000) (now - ts) < 0
    · rw [if_pos hv]
      constructor
      · have hle : (last : ℚ) ≤ (last : ℚ) + r * max (1/1000) (now - ts) := by linarith
        have h2 : (last : ℤ) ≤ ⌈(last : ℚ) + r * max (1/1000) (now - ts)⌉ := by
          calc (last : ℤ) = ⌈((last : ℤ) : ℚ)⌉ := (Int.ceil_intCast last).symm
          _ ≤ _ := Int.ceil_mono hle
        exact le_trans (min_le_right _ _) h2
      · have h0 : ⌈(last : ℚ) + r * max (1/1000) (now - ts)⌉ ≤ 0 :=
          Int.ceil_le.mpr (by exact_mod_cast hv.le)
        have h0q : ((⌈(last : ℚ) + r * max (1/1000) (now - ts)⌉ : ℤ) : ℚ) ≤ 0 := by
          exact_mod_cast h0
        exact le_trans h0q (le_trans hm.le (le_max_right _ _))
    · rw [if_neg hv]
      constructor
      · have hle : (last : ℚ) ≤ (last : ℚ) + r * max (1/1000) (now - ts) := by linarith
        have h2 : (last : ℤ) ≤ ⌊(last : ℚ) + r * max (1/1000) (now - ts)⌋ := by
          calc (last : ℤ) = ⌊((last : ℤ) : ℚ)⌋ := (Int.floor_intCast last).symm
          _ ≤ _ := Int.floor_mono hle
        exact le_trans (min_le_right _ _) h2
      · have h3 : (⌊(last : ℚ) + r * max (1/1000) (now - ts)⌋ : ℚ) ≤ m :=
          le_trans (le_trans (Int.floor_le _) hvlt.le) hx2m
        exact le_trans h3 (le_max_right _ _)
  · rw [if_neg hdir]
    have habs : |((x2 - last : ℤ) : ℚ)| = -((x2 - last : ℤ) : ℚ) :=
      abs_of_nonpos (by exact_mod_cast (not_lt.mp hdir))
    rw [habs] at htr
    push_cast at htr
    have hgt : (x2 : ℚ) < (last : ℚ) - r * max (1/1000) (now - ts) := by linarith
    have harg : (0 : ℚ) ≤ (last : ℚ) - r * max (1/1000) (now - ts) :=
      le_trans (by exact_mod_cast hx2) hgt.le
    rw [pyInt_of_nonneg _ harg]
    constructor
    · have h2 : (x2 : ℤ) ≤ ⌊(last : ℚ) - r * max (1/1000) (now - ts)⌋ := by
        calc (x2 : ℤ) = ⌊((x2 : ℤ) : ℚ)⌋ := (Int.floor_intCast x2).symm
        _ ≤ _ := Int.floor_mono hgt.le
      exact le_trans (le_trans (min_le_left _ _) hx2) h2
    · have h2 : (⌊(last : ℚ) - r * max (1/1000) (now - ts)⌋ : ℚ) ≤ (last : ℚ) :=
        le_trans (Int.floor_le _) (by linarith [hM.le])
      exact le_trans h2 (le_max_left _ _)

theorem rampStage_step_general (r : ℚ) (last : ℤ) (ts now : ℚ) (x2 : ℤ) (hr : 0 < r) :
    |rampStage (some r) last (some ts) now x2 - last| ≤ ⌈r * max (1/1000) (now - ts)⌉ := by
  unfold rampStage
  dsimp only
  rw [if_pos hr]
  have hM : 0 < r * max (1/1000) (now - ts) :=
    mul_pos hr (lt_of_lt_of_le (by norm_num) (le_max_left _ _))
  have hceil0 : 0 ≤ ⌈r * max (1/1000) (now - ts)⌉ := Int.ceil_nonneg hM.le
  have hfl0 : 0 ≤ ⌊r * max (1/1000) (now - ts)⌋ := Int.le_floor.mpr (by exact_mod_cast hM.le)
  have hflc : ⌊r * max (1/1000) (now - ts)⌋ ≤ ⌈r * max (1/1000) (now - ts)⌉ :=
    Int.floor_le_ceil _
  by_cases htr : r * max (1/1000) (now - ts) < |((x2 - last : ℤ) : ℚ)|
  swap
  · rw [if_neg htr]
    have h1 : |((x2 - last : ℤ) : ℚ)| ≤ (⌈r * max (1/1000) (now - ts)⌉ : ℚ) :=
      le_trans (not_lt.mp htr) (Int.le_ceil _)
    rw [← Int.cast_abs] at h1
    exact_mod_cast h1
  rw [if_pos htr]
  by_cases hdir : 0 < x2 - last
  · rw [if_pos hdir]
    unfold pyInt
    by_cases hv : (last : ℚ) + r * max (1/1000) (now - ts) < 0
    · rw [if_pos hv]
      have hc : ⌈(last : ℚ) + r * max (1/1000) (now - ts)⌉
          = ⌈r * max (1/1000) (now - ts)⌉ + last := by
        rw [add_comm ((last : ℚ)) (r * max (1/1000) (now - ts)), Int.ceil_add_int]
      rw [hc, add_sub_cancel_right, abs_of_nonneg hceil0]
    · rw [if_neg hv]
      rw [Int.floor_int_add, add_sub_cancel_left, abs_of_nonneg hfl0]
      exact hflc
  · rw [if_neg hdir]
    unfold pyInt
    by_cases hv : (last : ℚ) - r * max (1/1000) (now - ts) < 0
    · rw [if_pos hv]
      have hc : ⌈(last : ℚ) - r * max (1/1000) (now - ts)⌉
          = -⌊r * max (1/1000) (now - ts)⌋ + last := by
        rw [sub_eq_add_neg, add_comm ((last : ℚ)) (-(r * max (1/1000) (now - ts))),
          Int.ceil_add_int, Int.ceil_neg]
      rw [hc, add_sub_cancel_right, abs_neg, abs_of_nonneg hfl0]
      exact hflc
    · rw [if_neg hv]
      have hfl : ⌊(last : ℚ) - r * max (1/1000) (now - ts)⌋
          = last - ⌈r * max (1/1000) (now - ts)⌉ := by
        rw [sub_eq_add_neg, Int.floor_int_add, Int.floor_neg, ← sub_eq_add_neg]
      rw [hfl, sub_sub_cancel_left, abs_neg, abs_of_nonneg hceil0]

theorem commissionIfNeeded_fst (env : ApplyEnv) (s : EdgeStateM) (ems : EMSState)
    (gs : GuardState) (now : ℚ) :
    (commissionIfNeeded env s ems gs now).1.last_setpoint_w = ems.last_setpoint_w ∧
    (commissionIfNeeded env s ems gs now).1.last_setpoint_ts = ems.last_setpoint_ts ∧
    (commissionIfNeeded env s ems gs now).1.hold_until = ems.hold_until := by
  unfold commissionIfNeeded
  split <;> simp

/-- Claim C2, amended: in an applier tick that ends in Import-AC with a
configured numeric `max_charge_w = m > 0`, the value written to
`ems_power_set` lies between `min(0, last_setpoint_w)` and
`max(last_setpoint_w, m)` - so it lies in the claimed `[0, m]` exactly
when the stored ramp baseline already does, and an out-of-range baseline
(for instance after `max_charge_w` is lowered at runtime) drags the write
outside `[0, m]`, see theorem `import_setpoint_bounds_violated`; and
whenever additionally `ramp_rate > 0` and a baseline timestamp is set,
the written value differs from `last_setpoint_w` by at most
`ceil(ramp_rate * dt)` with `dt = max(1 ms, now - last_setpoint_ts)` (the
`int()` truncation of the ramped value can exceed the exact bound
`ramp_rate * dt` by less than 1 W). -/
theorem apply_import_setpoint_bounds (env : ApplyEnv) (s : EdgeStateM) (cid : String)
    (ems : EMSState) (gs : GuardState) (soc meter_p pv_power : ℚ) (now_dt : ℤ) (now_ts : ℚ)
    (w : ℤ) (m : ℚ)
    (hmode : (EMSapply env s cid ems gs soc meter_p pv_power now_dt now_ts).mode
      = IMPORT_AC_MODE)
    (hw : (EMSapply env s cid ems gs soc meter_p pv_power now_dt now_ts).setpointWritten
      = some w)
    (hm : pyOrQ (getBatteryConfig s cid).max_charge_w s.settings.max_charge_w = some m)
    (hm0 : 0 < m) :
    (min 0 ems.last_setpoint_w ≤ w ∧ (w : ℚ) ≤ max (ems.last_setpoint_w : ℚ) m) ∧
    ∀ r ts,
      pyOrQ (getBatteryConfig s cid).max_ramp_rate_w_per_s
        (pyOrQ s.settings.max_ramp_rate_w_per_s s.settings.ramprate) = some r →
      0 < r → ems.last_setpoint_ts = some ts →
      |w - ems.last_setpoint_w| ≤ ⌈r * max (1/1000) (now_ts - ts)⌉ := by
  obtain ⟨hc1, hc2, hc3⟩ := commissionIfNeeded_fst env s ems gs now_ts
  unfold EMSapply at hmode hw
  dsimp only at hmode hw
  by_cases hd :
      (EMSdecide s cid (commissionIfNeeded env s ems gs now_ts).1 soc pv_power now_dt).mode
        = IMPORT_AC_MODE
  swap
  · rw [if_neg hd] at hmode
    dsimp only at hmode
    exact absurd hmode hd
  rw [if_pos hd] at hw
  dsimp only at hw
  rw [if_pos hd] at hw
  rw [hc1, hc2, hm] at hw
  have hww := Option.some.inj hw
  unfold clampRamp at hww
  constructor
  · have hb := rampStage_bounds_general
      (pyOrQ (getBatteryConfig s cid).max_ramp_rate_w_per_s
        (pyOrQ s.settings.max_ramp_rate_w_per_s s.settings.ramprate))
      ems.last_setpoint_w ems.last_setpoint_ts now_ts
      (clampStage (some m)
        (EMSdecide s cid (commissionIfNeeded env s ems gs now_ts).1 soc pv_power
          now_dt).setpoint)
      m (clampStage_nonneg _ _) (clampStage_le m _ hm0) hm0
    rw [hww] at hb
    exact hb
  · intro r ts h1 h2 h3
    rw [h1, h3] at hww
    have hs := rampStage_step_general r ems.last_setpoint_w ts now_ts
      (clampStage (some m)
        (EMSdecide s cid (commissionIfNeeded env s ems gs now_ts).1 soc pv_power
          now_dt).setpoint)
      h2
    rw [hww] at hs
    exact hs

/-- Counterexample to claim C6 as stated: a dynamic payload re-targeting
an expired service day (day 20000 when today is 20001) meets the occupied
slot (B1, 20000); the merge itself takes the new entry (same key, higher
revision), but the garbage collection that ends `update_task` then drops
the whole day, so the slot ends empty - neither N replaced E nor was E
kept. -/
theorem stale_slot_merge_emptied_by_gc :
    dynSlot sWithE.tasks_dynamic "B1" 20000 = some eRev1 ∧
    takesNew (mkDynEntry "B1" pRev2 20000 50) eRev1 ∧
    dynSlot (updateTask sWithE "B1" (some pRev2) 50 20001).tasks_dynamic "B1" 20000
      = none := by decide

/-- Claim C6, amended: when a dynamic payload with a valid `service_day`
in {today, tomorrow} meets an occupied slot `(cid, sd)` holding E, the
new entry `N = mkDynEntry cid p sd now` ends up in the slot exactly when
`takesNew N E` holds (override supersession, same non-empty key with
higher revision, same key and revision with strictly newer `updated_at`,
or keys not both equal and non-empty); otherwise E stays.  For a payload
re-targeting a day outside {today, tomorrow} the merged slot is
immediately garbage-collected away instead (see theorem
`stale_slot_merge_emptied_by_gc`). -/
theorem dynamic_conflict_resolution (s : EdgeStateM) (cid : String) (p : TaskPayload)
    (now : ℚ) (today sd : ℤ) (E : DynTask)
    (hnd : (s.tasks_dynamic.map Prod.fst).Nodup)
    (hty : ¬strLower (p.task_type.getD "") = "static")
    (hsd : p.service_day = some sd)
    (hkeep : sd = today ∨ sd = today + 1)
    (hE : dynSlot s.tasks_dynamic cid sd = some E) :
    dynSlot (updateTask s cid (some p) now today).tasks_dynamic cid sd
      = some (if takesNew (mkDynEntry cid p sd now) E then mkDynEntry cid p sd now else E) := by
  unfold updateTask
  dsimp only
  rw [if_neg hty, hsd]
  dsimp only [gcDynamic]
  rw [dynSlot_gc today _ cid sd (setA_keys_nodup _ _ _ hnd),
    if_pos ((keepDay_true_iff today sd).mpr hkeep)]
  unfold dynSlot
  rw [lookupA_setA_self, Option.getD_some, mergeDyn_sd]
  unfold dynSlot at hE
  rw [hE]

/-- Witness for C6: a same-key revision-2 payload replaces the stored
revision-1 entry in slot (B1, day 20000). -/
theorem dynamic_conflict_resolution_witness :
    dynSlot (updateTask sWithE "B1" (some pRev2) 50 20000).tasks_dynamic "B1" 20000
      = some (if takesNew (mkDynEntry "B1" pRev2 20000 50) eRev1
              then mkDynEntry "B1" pRev2 20000 50 else eRev1) :=
  dynamic_conflict_resolution sWithE "B1" pRev2 50 20000 20000 eRev1 (by decide) (by decide)
    (by decide) (by decide) (by decide)

theorem mem_gcDynList (today : ℤ) (l : List (String × List (ℤ × DynTask)))
    (cm : String × List (ℤ × DynTask)) (h : cm ∈ gcDynList today l) :
    ∃ c dm, cm = (c, dm.filter (fun de => keepDay today de.1)) ∧ (c, dm) ∈ l := by
  induction l with
  | nil => simp [gcDynList] at h
  | cons hd t ih =>
    obtain ⟨c, dm⟩ := hd
    rw [gcDynList_cons] at h
    by_cases he : (dm.filter (fun de => keepDay today de.1)).isEmpty
    · rw [if_pos he] at h
      obtain ⟨c1, dm1, hcm, hmem⟩ := ih h
      exact ⟨c1, dm1, hcm, List.mem_cons_of_mem _ hmem⟩
    · rw [if_neg he] at h
      rcases List.mem_cons.mp h with h2 | h2
      · exact ⟨c, dm, h2, List.mem_cons_self _ _⟩
      · obtain ⟨c1, dm1, hcm, hmem⟩ := ih h2
        exact ⟨c1, dm1, hcm, List.mem_cons_of_mem _ hmem⟩

theorem InvDyn_gcDynList (today : ℤ) (l : List (String × List (ℤ × DynTask)))
    (h : ∀ cm ∈ l, (cm.2.map Prod.fst).Nodup) : InvDyn (gcDynList today l) today := by
  intro cm hm
  obtain ⟨c, dm, hcm, hmem⟩ := mem_gcDynList today l cm hm
  subst hcm
  dsimp only
  constructor
  · exact List.Nodup.sublist (List.Sublist.map Prod.fst (List.filter_sublist dm))
      (h (c, dm) hmem)
  · intro de hde
    exact (List.mem_filter.mp hde).2

/-- Claim C8: every completed mutation of the task store - a dynamic
insert via `update_task` (the payload is non-static and carries a valid
`service_day`), a fallback copy-forward (when the fallback does not
refuse, in which case the store is untouched), or a `complete_task` -
leaves each unit with at most one dynamic entry per service day and no
dynamic entry whose service day lies outside {today, tomorrow}, because
each of these paths ends in the day garbage collector.  The only
hypothesis is dict well-formedness of the pre-state (no duplicate day
keys per unit); in particular the pre-state may be arbitrarily stale, as
after a midnight rollover. -/
theorem dynamic_store_invariant (s : EdgeStateM) (cid : String) (p : TaskPayload)
    (now : ℚ) (day today sd : ℤ)
    (hnd : ∀ cm ∈ s.tasks_dynamic, (cm.2.map Prod.fst).Nodup) :
    (¬strLower (p.task_type.getD "") = "static" → p.service_day = some sd →
      InvDyn (updateTask s cid (some p) now today).tasks_dynamic today) ∧
    (updateTask s cid none now today = s ∨
      InvDyn (updateTask s cid none now today).tasks_dynamic today) ∧
    InvDyn (completeTask s cid day today).tasks_dynamic today := by
  have hnodups : ∀ cm ∈ s.tasks_dynamic, (cm.2.map Prod.fst).Nodup := hnd
  refine ⟨?_, ?_, ?_⟩
  · intro hty hsd
    unfold updateTask
    dsimp only
    rw [if_neg hty, hsd]
    dsimp only [gcDynamic]
    apply InvDyn_gcDynList
    intro cm hm
    rcases mem_setA _ _ _ _ hm with hcm | hcm
    · subst hcm
      dsimp only
      apply mergeDyn_keys_nodup
      cases hpb : lookupA s.tasks_dynamic cid with
      | none => simp
      | some pb =>
        rw [Option.getD_some]
        exact hnodups (cid, pb) (lookupA_mem _ _ _ hpb)
    · exact hnodups cm hcm
  · unfold updateTask fallbackFromPrevious
    dsimp only
    cases hpb : lookupA s.tasks_dynamic cid with
    | none => exact Or.inl rfl
    | some pb =>
      rw [Option.getD_some]
      have hpbnd : (pb.map Prod.fst).Nodup := hnodups (cid, pb) (lookupA_mem _ _ _ hpb)
      cases pb with
      | nil => exact Or.inl rfl
      | cons hd rest =>
        dsimp only
        by_cases hage :
            s.fallback_max_days < today - rest.foldl (fun m de => max m de.1) hd.1
        · rw [if_pos hage]
          exact Or.inl rfl
        · rw [if_neg hage]
          cases lookupA (hd :: rest) (rest.foldl (fun m de => max m de.1) hd.1) with
          | none => exact Or.inl rfl
          | some last_task =>
            refine Or.inr ?_
            dsimp only [gcDynamic]
            apply InvDyn_gcDynList
            intro cm hm
            rcases mem_setA _ _ _ _ hm with hcm | hcm
            · subst hcm
              dsimp only
              by_cases h1c : (lookupA (hd :: rest) today).isSome = true
              · rw [if_pos h1c]
                by_cases h2c : (lookupA (hd :: rest) (today + 1)).isSome = true
                · rw [if_pos h2c]
                  exact hpbnd
                · rw [if_neg h2c]
                  exact setA_keys_nodup _ _ _ hpbnd
              · rw [if_neg h1c]
                by_cases h2c : (lookupA (setA (hd :: rest) today
                    { last_task with
                        task_code := last_task.task_code ++ "-copy-" ++ toString today,
                        updated_at := now }) (today + 1)).isSome = true
                · rw [if_pos h2c]
                  exact setA_keys_nodup _ _ _ hpbnd
                · rw [if_neg h2c]
                  exact setA_keys_nodup _ _ _ (setA_keys_nodup _ _ _ hpbnd)
            · exact hnodups cm hcm
  · unfold completeTask
    dsimp only
    cases hdm : lookupA s.tasks_dynamic cid with
    | none =>
      dsimp only [gcDynamic]
      exact InvDyn_gcDynList today _ hnodups
    | some daymap =>
      have hdmnd : (daymap.map Prod.fst).Nodup := hnodups (cid, daymap) (lookupA_mem _ _ _ hdm)
      dsimp only
      by_cases hc : (!daymap.isEmpty && (lookupA daymap day).isSome) = true
      · rw [if_pos hc]
        by_cases he : (eraseA daymap day).isEmpty
        · rw [if_pos he]
          dsimp only [gcDynamic]
          apply InvDyn_gcDynList
          intro cm hm
          exact hnodups cm (mem_eraseA _ _ _ hm)
        · rw [if_neg he]
          dsimp only [gcDynamic]
          apply InvDyn_gcDynList
          intro cm hm
          rcases mem_setA _ _ _ _ hm with hcm | hcm
          · subst hcm
            dsimp only
            exact List.Nodup.sublist (List.Sublist.map Prod.fst (eraseA_sublist daymap day))
              hdmnd
          · exact hnodups cm hcm
      · rw [if_neg hc]
        dsimp only [gcDynamic]
        exact InvDyn_gcDynList today _ hnodups

/-- Witness for C8: on a store holding one entry, the dynamic insert, the
fallback and the completion all leave the invariant established (the
store is well-formed, and the fallback on this store does not refuse). -/
theorem dynamic_store_invariant_witness :
    InvDyn (updateTask sWithE "B1" (some pRev2) 50 20000).tasks_dynamic 20000 ∧
    (updateTask sWithE "B1" none 50 20000 = sWithE ∨
      InvDyn (updateTask sWithE "B1" none 50 20000).tasks_dynamic 20000) ∧
    InvDyn (completeTask sWithE "B1" 20000 20000).tasks_dynamic 20000 :=
  ⟨(dynamic_store_invariant sWithE "B1" pRev2 50 20000 20000 20000 (by decide)).1
      (by decide) (by decide),
   (dynamic_store_invariant sWithE "B1" pRev2 50 20000 20000 20000 (by decide)).2.1,
   (dynamic_store_invariant sWithE "B1" pRev2 50 20000 20000 20000 (by decide)).2.2⟩

/-- Witness for the amended claim C2: an Import-AC tick with
`max_charge_w = 5000`, baseline (0 W, t = 0) and decider setpoint 0
writes 0 W, inside the min/max envelope and within the ceiling-ramp
bound. -/
theorem apply_import_setpoint_bounds_witness :
    (min 0 emsZeroBase.last_setpoint_w ≤ (0 : ℤ) ∧
      ((0 : ℤ) : ℚ) ≤ max (emsZeroBase.last_setpoint_w : ℚ) 5000) ∧
    ∀ r ts,
      pyOrQ (getBatteryConfig sRamped "B1").max_ramp_rate_w_per_s
        (pyOrQ sRamped.settings.max_ramp_rate_w_per_s sRamped.settings.ramprate) = some r →
      0 < r → emsZeroBase.last_setpoint_ts = some ts →
      |(0 : ℤ) - emsZeroBase.last_setpoint_w| ≤ ⌈r * max (1/1000) (5/2 - ts)⌉ :=
  apply_import_setpoint_bounds envOkAll sRamped "B1" emsZeroBase GuardState.init (1/2) 0 0 3600
    (5/2) 0 5000 (by decide) (by decide) (by decide) (by decide)

theorem gcDynList_setA_congr (today : ℤ) (l : List (String × List (ℤ × DynTask)))
    (c : String) (m mm : List (ℤ × DynTask))
    (h : m.filter (fun de => keepDay today de.1) = mm.filter (fun de => keepDay today de.1)) :
    gcDynList today (setA l c m) = gcDynList today (setA l c mm) := by
  induction l with
  | nil =>
    show gcDynList today [(c, m)] = gcDynList today [(c, mm)]
    rw [gcDynList_cons, gcDynList_cons, h]
  | cons hd t ih =>
    obtain ⟨k, dm⟩ := hd
    by_cases hk : k = c
    · have e1 : setA ((k, dm) :: t) c m = (c, m) :: t := by simp [setA, hk]
      have e2 : setA ((k, dm) :: t) c mm = (c, mm) :: t := by simp [setA, hk]
      rw [e1, e2, gcDynList_cons, gcDynList_cons, h]
    · have e1 : setA ((k, dm) :: t) c m = (k, dm) :: setA t c m := by simp [setA, hk]
      have e2 : setA ((k, dm) :: t) c mm = (k, dm) :: setA t c mm := by simp [setA, hk]
      rw [e1, e2, gcDynList_cons, gcDynList_cons, ih]

theorem mkDynEntry_now_congr (cid : String) (p : TaskPayload) (sd : ℤ) (t1 t2 : ℚ)
    (hu : (p.updated_at).isSome = true) :
    mkDynEntry cid p sd t2 = mkDynEntry cid p sd t1 := by
  obtain ⟨u, hu⟩ := Option.isSome_iff_exists.mp hu
  unfold mkDynEntry
  simp only [hu, Option.getD_some]

theorem mkStaticEntry_now_congr (p : TaskPayload) (t1 t2 : ℚ)
    (hu : (p.updated_at).isSome = true) :
    mkStaticEntry p t2 = mkStaticEntry p t1 := by
  obtain ⟨u, hu⟩ := Option.isSome_iff_exists.mp hu
  unfold mkStaticEntry
  simp only [hu, Option.getD_some]

theorem updateTask_now_congr (s : EdgeStateM) (cid : String) (p : TaskPayload)
    (t1 t2 : ℚ) (today : ℤ) (hu : (p.updated_at).isSome = true) :
    updateTask s cid (some p) t2 today = updateTask s cid (some p) t1 today := by
  unfold updateTask
  dsimp only
  by_cases hty : strLower (p.task_type.getD "") = "static"
  · rw [if_pos hty, if_pos hty, mkStaticEntry_now_congr p t1 t2 hu]
  · rw [if_neg hty, if_neg hty]
    cases p.service_day with
    | none => rfl
    | some sd =>
      dsimp only
      rw [mkDynEntry_now_congr cid p sd t1 t2 hu]

theorem updateTask_replay_same_clock (s : EdgeStateM) (cid : String) (p : TaskPayload)
    (now : ℚ) (today : ℤ)
    (hnd : (s.tasks_dynamic.map Prod.fst).Nodup) :
    updateTask (updateTask s cid (some p) now today) cid (some p) now today
      = updateTask s cid (some p) now today := by
  by_cases hty : strLower (p.task_type.getD "") = "static"
  · have hff : ((mkStaticEntry p now).override && !(mkStaticEntry p now).override) = false := by
      cases (mkStaticEntry p now).override <;> rfl
    cases hprev : lookupA s.tasks_static cid with
    | some prev =>
      by_cases hov : (prev.override && !(mkStaticEntry p now).override) = true
      · have hin : updateTask s cid (some p) now today = s := by
          unfold updateTask
          dsimp only
          rw [if_pos hty, hprev]
          dsimp only
          rw [if_pos hov]
        rw [hin, hin]
      · have hin : updateTask s cid (some p) now today
            = { s with tasks_static := setA s.tasks_static cid (mkStaticEntry p now) } := by
          unfold updateTask
          dsimp only
          rw [if_pos hty, hprev]
          dsimp only
          rw [if_neg hov]
        rw [hin]
        unfold updateTask
        dsimp only
        rw [if_pos hty, lookupA_setA_self]
        dsimp only
        rw [if_neg (by simp [hff]), setA_setA]
    | none =>
      have hin : updateTask s cid (some p) now today
          = { s with tasks_static := setA s.tasks_static cid (mkStaticEntry p now) } := by
        unfold updateTask
        dsimp only
        rw [if_pos hty, hprev]
      rw [hin]
      unfold updateTask
      dsimp only
      rw [if_pos hty, lookupA_setA_self]
      dsimp only
      rw [if_neg (by simp [hff]), setA_setA]
  · cases hsd : p.service_day with
    | none =>
      have hin : updateTask s cid (some p) now today = s := by
        unfold updateTask
        dsimp only
        rw [if_neg hty, hsd]
      rw [hin, hin]
    | some sd =>
      have hin : updateTask s cid (some p) now today
          = { s with tasks_dynamic := gcDynList today (setA s.tasks_dynamic cid
              (mergeDyn ((lookupA s.tasks_dynamic cid).getD []) sd
                (mkDynEntry cid p sd now))) } := by
        unfold updateTask
        dsimp only
        rw [if_neg hty, hsd]
        dsimp only [gcDynamic]
      rw [hin]
      unfold updateTask
      dsimp only
      rw [if_neg hty, hsd]
      dsimp only [gcDynamic]
      have hnd1 : ((setA s.tasks_dynamic cid
          (mergeDyn ((lookupA s.tasks_dynamic cid).getD []) sd
            (mkDynEntry cid p sd now))).map Prod.fst).Nodup :=
        setA_keys_nodup _ _ _ hnd
      have hlook := lookupA_gcDynList today _ cid hnd1
      rw [lookupA_setA_self, Option.getD_some] at hlook
      cases hkeep : keepDay today sd with
      | true =>
        have hfsd : lookupA ((mergeDyn ((lookupA s.tasks_dynamic cid).getD []) sd
            (mkDynEntry cid p sd now)).filter (fun de => keepDay today de.1)) sd
            = lookupA (mergeDyn ((lookupA s.tasks_dynamic cid).getD []) sd
              (mkDynEntry cid p sd now)) sd := by
          rw [lookupA_filter_key, if_pos hkeep]
        have hsdv : ∃ v, lookupA (mergeDyn ((lookupA s.tasks_dynamic cid).getD []) sd
            (mkDynEntry cid p sd now)) sd = some v := by
          rw [mergeDyn_sd]
          exact ⟨_, rfl⟩
        obtain ⟨v, hsdv⟩ := hsdv
        have hne : ((mergeDyn ((lookupA s.tasks_dynamic cid).getD []) sd
            (mkDynEntry cid p sd now)).filter
              (fun de => keepDay today de.1)).isEmpty = false :=
          lookupA_isEmpty_false _ _ _ (hfsd.trans hsdv)
        rw [hne] at hlook
        simp only [Bool.false_eq_true, if_false] at hlook
        rw [hlook, Option.getD_some]
        rcases mergeDyn_cases ((lookupA s.tasks_dynamic cid).getD []) sd
            (mkDynEntry cid p sd now) with hm1 | ⟨E, hEx, hdrop, hm1⟩
        · have hexN : lookupA ((mergeDyn ((lookupA s.tasks_dynamic cid).getD []) sd
              (mkDynEntry cid p sd now)).filter (fun de => keepDay today de.1)) sd
              = some (mkDynEntry cid p sd now) := by
            rw [hfsd, hm1, lookupA_setA_self]
          rw [mergeDyn_self _ _ _ hexN, setA_of_lookupA_eq _ _ _ hlook, gcDynList_idem]
        · have hexE : lookupA ((mergeDyn ((lookupA s.tasks_dynamic cid).getD []) sd
              (mkDynEntry cid p sd now)).filter (fun de => keepDay today de.1)) sd
              = some E := by
            rw [hfsd, hm1]
            exact hEx
          rw [mergeDyn_drop _ _ _ _ hexE hdrop, setA_of_lookupA_eq _ _ _ hlook, gcDynList_idem]
      | false =>
        cases hfe : ((mergeDyn ((lookupA s.tasks_dynamic cid).getD []) sd
            (mkDynEntry cid p sd now)).filter (fun de => keepDay today de.1)).isEmpty with
        | true =>
          rw [hfe] at hlook
          simp only [if_true] at hlook
          rw [hlook, Option.getD_none]
          have hm2 : mergeDyn ([] : List (ℤ × DynTask)) sd (mkDynEntry cid p sd now)
              = [(sd, mkDynEntry cid p sd now)] := rfl
          rw [hm2, setA_of_lookupA_none _ _ _ hlook, gcDynList_append]
          have hg : gcDynList today [(cid, [(sd, mkDynEntry cid p sd now)])] = [] := by
            rw [gcDynList_cons]
            simp [List.filter_cons, hkeep, gcDynList]
          rw [hg, List.append_nil, gcDynList_idem]
        | false =>
          rw [hfe] at hlook
          simp only [Bool.false_eq_true, if_false] at hlook
          rw [hlook, Option.getD_some]
          have hnosd : lookupA ((mergeDyn ((lookupA s.tasks_dynamic cid).getD []) sd
              (mkDynEntry cid p sd now)).filter (fun de => keepDay today de.1)) sd = none := by
            rw [lookupA_filter_key, hkeep]
            simp
          rw [mergeDyn_fresh _ _ _ hnosd]
          have hcong := gcDynList_setA_congr today
            (gcDynList today (setA s.tasks_dynamic cid
              (mergeDyn ((lookupA s.tasks_dynamic cid).getD []) sd (mkDynEntry cid p sd now))))
            cid
            (setA ((mergeDyn ((lookupA s.tasks_dynamic cid).getD []) sd
              (mkDynEntry cid p sd now)).filter (fun de => keepDay today de.1)) sd
              (mkDynEntry cid p sd now))
            ((mergeDyn ((lookupA s.tasks_dynamic cid).getD []) sd
              (mkDynEntry cid p sd now)).filter (fun de => keepDay today de.1))
            (by
              rw [setA_of_lookupA_none _ _ _ hnosd, List.filter_append]
              simp [List.filter_cons, hkeep])
          rw [hcong, setA_of_lookupA_eq _ _ _ hlook, gcDynList_idem]

/-- Counterexample to claim C7 as stated: replaying a payload that
carries no `updated_at` at a later clock reading restamps the entry with
the new receive time (`updated_at or now`), and the restamped entry
replaces the stored one (same non-empty key, same revision, strictly
newer `updated_at`), so the two-application store differs from the
single-application store. -/
theorem replay_restamps_updated_at :
    (dynSlot (updateTask sWithE "B1" (some pRev2) 0 20000).tasks_dynamic "B1" 20000).map
        DynTask.updated_at = some 0 ∧
    (dynSlot (updateTask (updateTask sWithE "B1" (some pRev2) 0 20000) "B1" (some pRev2) 1
        20000).tasks_dynamic "B1" 20000).map DynTask.updated_at = some 1 ∧
    updateTask (updateTask sWithE "B1" (some pRev2) 0 20000) "B1" (some pRev2) 1 20000
      ≠ updateTask sWithE "B1" (some pRev2) 0 20000 := by decide

/-- Claim C7, amended: task merge is idempotent under replay whenever the
replay does not restamp the entry - the two applications read the same
clock, or the payload carries its own explicit `updated_at` (then the
stored entry is independent of the receive time).  A payload without
`updated_at` replayed at a later clock restamps and replaces the stored
entry (see theorem `replay_restamps_updated_at`).  The remaining
hypothesis is dict well-formedness of the store (no duplicate unit
keys). -/
theorem update_task_idempotent (s : EdgeStateM) (cid : String) (p : TaskPayload)
    (t1 t2 : ℚ) (today : ℤ)
    (hnd : (s.tasks_dynamic.map Prod.fst).Nodup)
    (h : t2 = t1 ∨ (p.updated_at).isSome = true) :
    updateTask (updateTask s cid (some p) t1 today) cid (some p) t2 today
      = updateTask s cid (some p) t1 today := by
  have h2 : updateTask (updateTask s cid (some p) t1 today) cid (some p) t2 today
      = updateTask (updateTask s cid (some p) t1 today) cid (some p) t1 today := by
    rcases h with h | h
    · rw [h]
    · exact updateTask_now_congr _ cid p t1 t2 today h
  rw [h2, updateTask_replay_same_clock s cid p t1 today hnd]

/-- Witness for C7: replaying the explicitly stamped revision-2 payload
ten seconds later over the store that already merged it changes
nothing. -/
theorem update_task_idempotent_witness :
    updateTask (updateTask sWithE "B1" (some pStamped) 50 20000) "B1" (some pStamped) 60 20000
      = updateTask sWithE "B1" (some pStamped) 50 20000 :=
  update_task_idempotent sWithE "B1" pStamped 50 60 20000 (by decide) (Or.inr (by decide))

end EdgeLogic

